import Mathlib

set_option linter.unusedVariables false
set_option linter.unusedSectionVars false

/-!
Shallow embedding of `src/Class4/network.py`: a feedforward neural network with
sigmoid activations trained by full-batch gradient descent with backpropagation.

Modelling conventions:
* numpy 2-D arrays are `List (List α)` (a list of rows); column vectors are `n × 1` arrays,
  exactly as in the source.
* Scalars range over an arbitrary `LinearOrderedField α`; IEEE floating point is not modelled,
  arithmetic is exact.  The float literals `0.8` and `0.00001` of the source become the exact
  rationals `8/10` and `1/100000`.
* The scalar sigmoid `1/(1 + exp(-z))` calls the floating-point exponential, a transcendental
  library primitive with no exact counterpart in the field `α`; the scalar map is therefore an
  abstract parameter `s : α → α` and every statement holds for all `s` (in particular for the
  real sigmoid).  `sigmoid_prime` is the source formula `sigmoid(z) * (1 - sigmoid(z))`.
* Operations that numpy or Python can abort with an exception (`np.dot` on misaligned shapes,
  broadcasting failures, `ZeroDivisionError`) return `Except String`; elementwise arithmetic
  implements numpy's 2-D broadcasting rule.
* Python's `while` loop in `SGD` has no bound, so the loop is embedded with a fuel parameter;
  `none` means the fuel ran out with the loop still running.
* `print` of the per-epoch accuracy is an observability side effect with no data flow and is
  not modelled.
-/

namespace NetworkPy

instance {ε β : Type} [DecidableEq ε] [DecidableEq β] : DecidableEq (Except ε β) := fun
  | .error a, .error b =>
    if h : a = b then .isTrue (by rw [h]) else .isFalse (fun c => h (Except.error.inj c))
  | .error _, .ok _ => .isFalse (fun c => Except.noConfusion c)
  | .ok _, .error _ => .isFalse (fun c => Except.noConfusion c)
  | .ok a, .ok b =>
    if h : a = b then .isTrue (by rw [h]) else .isFalse (fun c => h (Except.ok.inj c))

/-- A 2-D numpy array, stored as its list of rows. -/
abbrev Mat (α : Type) := List (List α)

variable {α : Type} [LinearOrderedField α]

/-- The matrix is rectangular with `r` rows and `c` columns. -/
def HasShape (m : Mat α) (r c : ℕ) : Prop :=
  m.length = r ∧ ∀ row ∈ m, row.length = c

instance (m : Mat α) (r c : ℕ) : Decidable (HasShape m r c) :=
  decidable_of_iff (m.length = r ∧ ∀ row ∈ m, row.length = c) Iff.rfl

/-- Number of columns as numpy would report it: length of the first row, `0` for an
empty array. -/
def numCols (m : Mat α) : ℕ := (m.headD []).length

/-- Entry `(i, j)` of a matrix (total, with default `0`; all uses are guarded by shape facts
or by numpy's broadcast index arithmetic). -/
def entry (m : Mat α) (i j : ℕ) : α := (m.getD i []).getD j 0

/-- numpy broadcasting of a single axis: two dimensions are compatible when they are equal or
one of them is `1`, in which case the broadcast dimension is the larger one. -/
def bDim (a b : ℕ) : Option ℕ :=
  if a = b then some a else if a = 1 then some b else if b = 1 then some a else none

/-- Elementwise binary operation on 2-D arrays with numpy broadcasting (this is what the
source's `+`, `-` and `*` on arrays do).  Incompatible shapes raise `ValueError`, modelled
as `Except.error`.  Reading an entry of a broadcast operand at index `i` uses `i % rows`,
which is the identity for a full-size axis and constantly `0` for a broadcast axis of
size 1. -/
def bop (f : α → α → α) (A B : Mat α) : Except String (Mat α) :=
  match bDim A.length B.length, bDim (numCols A) (numCols B) with
  | some r, some c =>
      .ok ((List.range r).map (fun i => (List.range c).map (fun j =>
        f (entry A (i % A.length) (j % numCols A)) (entry B (i % B.length) (j % numCols B)))))
  | _, _ => .error "ValueError: operands could not be broadcast together"

/-- Elementwise sum of two same-shape matrices (the shape-checked `bop` reduces to this when
the shapes agree). -/
def addT (A B : Mat α) : Mat α := List.zipWith (List.zipWith (· + ·)) A B

/-- Elementwise difference of two same-shape matrices. -/
def subT (A B : Mat α) : Mat α := List.zipWith (List.zipWith (· - ·)) A B

/-- Elementwise (Hadamard) product of two same-shape matrices. -/
def hadT (A B : Mat α) : Mat α := List.zipWith (List.zipWith (· * ·)) A B

/-- Scalar multiple of a matrix (numpy `scalar * array`). -/
def smulT (c : α) (M : Mat α) : Mat α := M.map (fun row => row.map (fun x => c * x))

/-- Sum of two vectors of equal length. -/
def vecAdd (v w : List α) : List α := List.zipWith (· + ·) v w

/-- Matrix product of rectangular matrices with agreeing inner dimension: row `i` of the
product is the linear combination of the rows of `B` with coefficients from row `i` of
`A`. -/
def matMulT (A B : Mat α) : Mat α :=
  A.map (fun row =>
    (List.zipWith (fun a brow => brow.map (fun x => a * x)) row B).foldr vecAdd
      (List.replicate (numCols B) 0))

/-- numpy `array.transpose()` on a 2-D array. -/
def transposeT (A : Mat α) : Mat α :=
  (List.range (numCols A)).map (fun j => A.map (fun row => row.getD j 0))

/-- numpy `np.zeros(M.shape)`. -/
def zeroLike (M : Mat α) : Mat α := M.map (fun row => row.map (fun _ => 0))

/-- Model of `np.dot` on 2-D arrays: the matrix product, raising `ValueError` when the inner
dimensions disagree (numpy does not broadcast `dot`). -/
def dotM (A B : Mat α) : Except String (Mat α) :=
  if numCols A = B.length then .ok (matMulT A B) else .error "ValueError: shapes not aligned"

/-- Python scalar division `x / n` with an integer denominator: raises `ZeroDivisionError`
when `n = 0`. -/
def scalarDiv (x : α) (n : ℕ) : Except String α :=
  if n = 0 then .error "ZeroDivisionError" else .ok (x / (n : α))

/-- Source `sigmoid` applied elementwise to an array, with the scalar map abstract (see the
module docstring). -/
def sigmoidArr (s : α → α) (M : Mat α) : Mat α := M.map (fun row => row.map s)

/-- Source `sigmoid_prime`: the derivative formula `sigmoid(z) * (1 - sigmoid(z))`. -/
def sigmoid_prime (s : α → α) (z : α) : α := s z * (1 - s z)

/-- Source `sigmoid_prime` applied elementwise to an array. -/
def sigmoidPrimeArr (s : α → α) (M : Mat α) : Mat α :=
  M.map (fun row => row.map (sigmoid_prime s))

/-- The `Network` class: layer sizes, per-layer bias vectors and weight matrices
(`self.num_layers` is `len(sizes)` and is kept as a derived function below, since nothing
in the source ever changes `sizes`). -/
structure Network (α : Type) where
  sizes : List ℕ
  biases : List (Mat α)
  weights : List (Mat α)
deriving DecidableEq

/-- Value of the source attribute `self.num_layers = len(sizes)`. -/
def Network.num_layers (net : Network α) : ℕ := net.sizes.length

/-- An `r × c` array of draws from an abstract entropy source `g` (models
`np.random.randn(r, c)`; the Gaussian distribution of the entries plays no role in any
claim, only the shape does). -/
def mkRandn (g : ℕ → ℕ → α) (r c : ℕ) : Mat α :=
  (List.range r).map (fun i => (List.range c).map (fun j => g i j))

/-- Source `Network.__init__`:
`biases = [randn(y, 1) for y in sizes[1:]]` and
`weights = [randn(y, x) for x, y in zip(sizes[:-1], sizes[1:])]`, with one abstract entropy
source per comprehension, indexed by the position in the comprehension. -/
def Network.init (sizes : List ℕ) (gB gW : ℕ → ℕ → ℕ → α) : Network α where
  sizes := sizes
  biases := (sizes.drop 1).mapIdx (fun i y => mkRandn (gB i) y 1)
  weights := ((sizes.dropLast).zip (sizes.drop 1)).mapIdx (fun i p => mkRandn (gW i) p.2 p.1)

/-- Loop body of `Network.feedforward`: for a pair `bw = (bias, wgt)`,
`a = sigmoid(np.dot(wgt, a) + bias)`. -/
def ffStep (s : α → α) (a : Mat α) (bw : Mat α × Mat α) : Except String (Mat α) := do
  let z ← dotM bw.2 a
  let z ← bop (· + ·) z bw.1
  pure (sigmoidArr s z)

/-- Source `Network.feedforward`: `a = sigmoid(np.dot(w, a) + b)` for each layer pair. -/
def feedforward (s : α → α) (net : Network α) (a : Mat α) : Except String (Mat α) :=
  (net.biases.zip net.weights).foldlM (ffStep s) a

/-- Auxiliary scan for `np.argmax`: current index, best value, best index. -/
def argmaxAux : List α → ℕ → α → ℕ → ℕ
  | [], _, _, best => best
  | v :: rest, i, bv, best =>
      if bv < v then argmaxAux rest (i + 1) v i else argmaxAux rest (i + 1) bv best

/-- Model of `np.argmax` on a 1-D list: index of the first occurrence of the maximum.
Every use below is on a nonempty list (numpy raises on an empty array; the junk value `0`
on `[]` is never reached under the shape hypotheses of the theorems). -/
def argmaxList : List α → ℕ
  | [] => 0
  | v :: rest => argmaxAux rest 1 v 0

/-- Model of `np.argmax` on a 2-D array: numpy flattens row-major first. -/
def argmaxA (M : Mat α) : ℕ := argmaxList M.flatten

/-- Monadic map used to model Python list comprehensions whose body can raise: evaluates
left to right and propagates the first exception. -/
def mapE {β γ : Type} (f : β → Except String γ) : List β → Except String (List γ)
  | [] => .ok []
  | x :: xs => do
      let y ← f x
      let ys ← mapE f xs
      pure (y :: ys)

/-- Source `Network.evaluate`.  `Sum.inl` is the accuracy count (the `if accuracy:` branch),
`Sum.inr` the list of raw output vectors (the `else` branch).  Exactly as in the source,
`test_results` is computed first in both modes. -/
def evaluate (s : α → α) (net : Network α) (test_data : List (Mat α × Mat α))
    (accuracy : Bool) : Except String (ℕ ⊕ List (Mat α)) := do
  let test_results ← mapE (fun p => do
      let out ← feedforward s net p.1
      pure (argmaxA out, argmaxA p.2)) test_data
  if accuracy then
    pure (Sum.inl ((test_results.map (fun r => if r.1 = r.2 then 1 else 0)).sum))
  else do
    let outs ← mapE (fun p => feedforward s net p.1) test_data
    pure (Sum.inr outs)

/-- Source `Network.cost_derivative`: `output_activations - y` (numpy subtraction, hence
possibly broadcasting). -/
def cost_derivative (output_activations y : Mat α) : Except String (Mat α) :=
  bop (· - ·) output_activations y

/-- Loop body of the caching forward pass inside `Network.backprop`: the running state is
`(activation, activations, zs)` and each step appends the new `z` and the new activation. -/
def fwdStep (s : α → α) (st : Mat α × List (Mat α) × List (Mat α)) (bw : Mat α × Mat α) :
    Except String (Mat α × List (Mat α) × List (Mat α)) := do
  let z ← dotM bw.2 st.1
  let z ← bop (· + ·) z bw.1
  let activation := sigmoidArr s z
  pure (activation, st.2.1 ++ [activation], st.2.2 ++ [z])

/-- Body of the backward loop `for l in range(2, self.num_layers)` of `Network.backprop`;
the state is `(delta, nabla_b, nabla_w)`. -/
def backStep (s : α → α) (zs activations ws : List (Mat α))
    (st : Mat α × List (Mat α) × List (Mat α)) (l : ℕ) :
    Except String (Mat α × List (Mat α) × List (Mat α)) := do
  let z := zs.getD (zs.length - l) []
  let sp := sigmoidPrimeArr s z
  -- BP2: delta = np.dot(self.weights[-l+1].transpose(), delta) * sp
  let md ← dotM (transposeT (ws.getD (ws.length + 1 - l) [])) st.1
  let delta ← bop (· * ·) md sp
  -- BP3: nabla_b[-l] = delta
  let nb := st.2.1.set (st.2.1.length - l) delta
  -- BP4: nabla_w[-l] = np.dot(delta, activations[-l-1].transpose())
  let nwl ← dotM delta (transposeT (activations.getD (activations.length - l - 1) []))
  let nw := st.2.2.set (st.2.2.length - l) nwl
  pure (delta, nb, nw)

/-- Source `Network.backprop`.  Python's negative indices `a[-l]` are rendered as
`a.getD (a.length - l)` / `List.set (a.length - l)`; under the shape hypotheses of the
theorems every such access is in range (out-of-range cases keep Python's list semantics
irrelevant here since the loop bound `num_layers` matches the list lengths). -/
def backprop (s : α → α) (net : Network α) (x y : Mat α) :
    Except String (List (Mat α) × List (Mat α)) := do
  let nabla_b := net.biases.map zeroLike
  let nabla_w := net.weights.map zeroLike
  -- feedforward, caching all activations and pre-activations (zs)
  let fwd ← (net.biases.zip net.weights).foldlM (fwdStep s)
    (x, ([x] : List (Mat α)), ([] : List (Mat α)))
  let activations := fwd.2.1
  let zs := fwd.2.2
  -- BP1: delta = cost_derivative(activations[-1], y) * sigmoid_prime(zs[-1])
  let cd ← cost_derivative (activations.getLastD []) y
  let delta ← bop (· * ·) cd (sigmoidPrimeArr s (zs.getLastD []))
  -- BP3: nabla_b[-1] = delta
  let nabla_b := nabla_b.set (nabla_b.length - 1) delta
  -- BP4: nabla_w[-1] = np.dot(delta, activations[-2].transpose())
  let nwL ← dotM delta (transposeT (activations.getD (activations.length - 2) []))
  let nabla_w := nabla_w.set (nabla_w.length - 1) nwL
  -- for l in range(2, self.num_layers):
  let st ← (List.range' 2 (net.num_layers - 2)).foldlM
    (backStep s zs activations net.weights) (delta, nabla_b, nabla_w)
  pure (st.2.1, st.2.2)

/-- One parameter-update comprehension of `SGD`:
`[p - (learning_rate/len(training_data)) * np for p, np in zip(params, nablas)]`.
The division sits inside the comprehension body, exactly as in the source, so with an
empty training set it raises `ZeroDivisionError` as soon as the first pair is
processed. -/
def updParams (lr : α) (n : ℕ) (ps ns : List (Mat α)) : Except String (List (Mat α)) :=
  mapE (fun p => do
      let c ← scalarDiv lr n
      bop (· - ·) p.1 (smulT c p.2)) (ps.zip ns)

/-- The accumulation comprehension of `SGD`:
`[nb + dnb for nb, dnb in zip(nabla, delta_nabla)]`. -/
def zipAddE (xs ys : List (Mat α)) : Except String (List (Mat α)) :=
  mapE (fun p => bop (· + ·) p.1 p.2) (xs.zip ys)

/-- Body of the per-example loop of `SGD`: run `backprop` on one example and add its
gradients into the accumulators. -/
def accumStep (s : α → α) (net : Network α) (st : List (Mat α) × List (Mat α))
    (p : Mat α × Mat α) : Except String (List (Mat α) × List (Mat α)) := do
  let g ← backprop s net p.1 p.2
  let nb ← zipAddE st.1 g.1
  let nw ← zipAddE st.2 g.2
  pure (nb, nw)

/-- One iteration of the body of `SGD`'s `while` loop: zero the accumulators, add every
example's backprop gradient into them, apply the averaged update to the weights and
biases, and re-evaluate the training accuracy.  Returns the updated network and the new
accuracy.  With `accuracy := true`, `evaluate` always returns `Sum.inl`; the
`Sum.elim id List.length` projection only gives Python's dynamically-typed result its
count type (the `Sum.inr` branch is dead). -/
def epochBody (s : α → α) (lr : α) (data : List (Mat α × Mat α)) (net : Network α) :
    Except String (Network α × α) := do
  let nb0 := net.biases.map zeroLike
  let nw0 := net.weights.map zeroLike
  let acc ← data.foldlM (accumStep s net) (nb0, nw0)
  let weights ← updParams lr data.length net.weights acc.2
  let biases ← updParams lr data.length net.biases acc.1
  let net' : Network α := { sizes := net.sizes, biases := biases, weights := weights }
  let ev ← evaluate s net' data true
  let tp := Sum.elim id List.length ev
  let accuracy_new ← scalarDiv (tp : α) data.length
  pure (net', accuracy_new)

/-- The `while accuracy_new < 0.8:` loop of `SGD`, with fuel.  `none` means the fuel was
exhausted with the loop still running (the source loop has no iteration bound).  After an
epoch the loop breaks when `abs(accuracy_new - accuracy_old) < 0.00001`; otherwise it
re-tests the `while` condition with the new accuracy. -/
def SGDloop (s : α → α) (lr : α) (data : List (Mat α × Mat α)) :
    ℕ → Network α → α → Except String (Option (Network α × α))
  | 0, _, _ => .ok none
  | fuel + 1, net, accuracy_new =>
    if accuracy_new < 8 / 10 then do
      let r ← epochBody s lr data net
      if |r.2 - accuracy_new| < 1 / 100000 then
        pure (some r)
      else
        SGDloop s lr data fuel r.1 r.2
    else
      .ok (some (net, accuracy_new))

/-- Source `Network.SGD`: run the loop starting from `accuracy_new = 0` and, upon
termination, `return self.evaluate(training_data, accuracy=False)` with the final
parameters. -/
def SGD (s : α → α) (net : Network α) (training_data : List (Mat α × Mat α))
    (learning_rate : α) (fuel : ℕ) : Except String (Option (ℕ ⊕ List (Mat α))) := do
  let r ← SGDloop s learning_rate training_data fuel net 0
  match r with
  | none => pure none
  | some p => do
      let out ← evaluate s p.1 training_data false
      pure (some out)

/-! Specification-side total functions, written from the claims' wording (forward lists of
activations and pre-activations, the backward delta recursion, the per-layer gradient
formulas).  The theorems below prove the source functions equal to these. -/

/-- The forward pass over a list of (bias, weight) layer pairs, collecting the
post-input activations and the pre-activations `z` in layer order. -/
def forwardPairsT (s : α → α) : List (Mat α × Mat α) → Mat α → List (Mat α) × List (Mat α)
  | [], _ => ([], [])
  | bw :: rest, a =>
      let z := addT (matMulT bw.2 a) bw.1
      let res := forwardPairsT s rest (sigmoidArr s z)
      (sigmoidArr s z :: res.1, z :: res.2)

/-- Plain forward pass over layer pairs (the output activation only). -/
def ffT (s : α → α) : List (Mat α × Mat α) → Mat α → Mat α
  | [], a => a
  | bw :: rest, a => ffT s rest (sigmoidArr s (addT (matMulT bw.2 a) bw.1))

/-- The ordered activation list of one forward pass, input included:
`activations[0] = x`, `activations[i+1] = sigmoid(W_i · activations[i] + b_i)`. -/
def activationsT (s : α → α) (net : Network α) (x : Mat α) : List (Mat α) :=
  x :: (forwardPairsT s (net.biases.zip net.weights) x).1

/-- The ordered pre-activation list of one forward pass:
`zs[i] = W_i · activations[i] + b_i`. -/
def zsT (s : α → α) (net : Network α) (x : Mat α) : List (Mat α) :=
  (forwardPairsT s (net.biases.zip net.weights) x).2

/-- The backward recursion of the claimed backpropagation equations, over the list of
pairs `(W_{l+1}, z_l)` for the non-output transitions: the delta of the last transition is
`top`, and each earlier delta is
`(W_{l+1}ᵗ · delta_{l+1}) ⊙ sigmoid_prime(z_l)`. -/
def backDeltas (s : α → α) : List (Mat α × Mat α) → Mat α → List (Mat α)
  | [], top => [top]
  | wz :: rest, top =>
      let ds := backDeltas s rest top
      hadT (matMulT (transposeT wz.1) (ds.headD [])) (sigmoidPrimeArr s wz.2) :: ds

/-- The claimed per-transition error vectors `delta_1, …, delta_L` (0-based transition
index), with the output layer's `delta_L = (activations[L] - y) ⊙ sigmoid_prime(zs[L])`. -/
def deltasT (s : α → α) (net : Network α) (x y : Mat α) : List (Mat α) :=
  let as := activationsT s net x
  let zs := zsT s net x
  backDeltas s ((net.weights.drop 1).zip (zs.dropLast))
    (hadT (subT (as.getLastD []) y) (sigmoidPrimeArr s (zs.getLastD [])))

/-- The claimed bias gradients: `∂C/∂b_l = delta_l`. -/
def nablaBT (s : α → α) (net : Network α) (x y : Mat α) : List (Mat α) := deltasT s net x y

/-- The claimed weight gradients: `∂C/∂W_l = delta_l · activations[l-1]ᵗ`. -/
def nablaWT (s : α → α) (net : Network α) (x y : Mat α) : List (Mat α) :=
  List.zipWith (fun d a => matMulT d (transposeT a)) (deltasT s net x y)
    ((activationsT s net x).dropLast)

/-- Elementwise sum of two equal-length lists of same-shape matrices. -/
def addLT (xs ys : List (Mat α)) : List (Mat α) := List.zipWith addT xs ys

/-- Sum over the whole training set of the claimed per-example bias gradients, started
from a zeroed accumulator. -/
def sumGradsB (s : α → α) (net : Network α) (data : List (Mat α × Mat α)) : List (Mat α) :=
  data.foldl (fun acc p => addLT acc (nablaBT s net p.1 p.2)) (net.biases.map zeroLike)

/-- Sum over the whole training set of the claimed per-example weight gradients, started
from a zeroed accumulator. -/
def sumGradsW (s : α → α) (net : Network α) (data : List (Mat α × Mat α)) : List (Mat α) :=
  data.foldl (fun acc p => addLT acc (nablaWT s net p.1 p.2)) (net.weights.map zeroLike)

/-- The chained shape discipline of a network: reading the layer pairs front to back,
each weight matrix maps the previous dimension to the next and each bias is a column of
the next dimension. -/
inductive Layers : ℕ → List (Mat α) → List (Mat α) → List ℕ → Prop
  | nil (d : ℕ) : Layers d [] [] []
  | cons {d n : ℕ} {b w : Mat α} {bs ws : List (Mat α)} {szs : List ℕ} :
      HasShape w n d → HasShape b n 1 → Layers n bs ws szs →
      Layers d (b :: bs) (w :: ws) (n :: szs)

/-- Well-formed network: at least two layers, positive layer sizes, and parameter shapes
chained along `sizes`. -/
def WF (net : Network α) : Prop :=
  2 ≤ net.sizes.length ∧ (∀ m ∈ net.sizes, 0 < m) ∧
    Layers (net.sizes.headD 0) net.biases net.weights (net.sizes.drop 1)

/-- A training example whose input and target dimensions match the declared layer sizes. -/
def ExOK (net : Network α) (p : Mat α × Mat α) : Prop :=
  HasShape p.1 (net.sizes.headD 0) 1 ∧ HasShape p.2 (net.sizes.getLastD 0) 1

/-- Every example of the data set matches the declared layer sizes. -/
def DataOK (net : Network α) (data : List (Mat α × Mat α)) : Prop := ∀ p ∈ data, ExOK net p

instance (net : Network α) (p : Mat α × Mat α) : Decidable (ExOK net p) :=
  decidable_of_iff
    (HasShape p.1 (net.sizes.headD 0) 1 ∧ HasShape p.2 (net.sizes.getLastD 0) 1) Iff.rfl

instance (net : Network α) (data : List (Mat α × Mat α)) : Decidable (DataOK net data) :=
  decidable_of_iff (∀ p ∈ data, ExOK net p) Iff.rfl

/-- Specification of a deterministic, lowest-index-on-ties argmax: `i` is in range, no
entry exceeds `l[i]`, and every entry before `i` is strictly smaller. -/
def IsLeastArgmax (l : List α) (i : ℕ) : Prop :=
  i < l.length ∧ (∀ j < l.length, l.getD j 0 ≤ l.getD i 0) ∧ ∀ j < i, l.getD j 0 < l.getD i 0

/-- Two lists of matrices shaped exactly like the network's bias and weight lists: one
entry per layer transition, biases as columns, weights as `(sizes[i+1], sizes[i])`
rectangles.  This is the shape discipline of a gradient (or gradient-accumulator) pair. -/
def GradsLike (net : Network α) (nb nw : List (Mat α)) : Prop :=
  nb.length = net.sizes.length - 1 ∧ nw.length = net.sizes.length - 1 ∧
  ∀ j < net.sizes.length - 1,
    HasShape (nb.getD j []) ((net.sizes.drop 1).getD j 0) 1 ∧
    HasShape (nw.getD j []) ((net.sizes.drop 1).getD j 0) (net.sizes.getD j 0)

/-! Small concrete rational instances used to instantiate the theorems below on closed
inputs (the abstract scalar map is taken to be constantly 0; any map works). -/

/-- A concrete stand-in for the sigmoid scalar map. -/
def zeroAct : ℚ → ℚ := fun _ => 0

/-- A concrete 2-layer network with sizes `[1, 2]`. -/
def netA : Network ℚ :=
  { sizes := [1, 2], biases := [[[0], [0]]], weights := [[[0], [0]]] }

/-- Two examples for `netA`; under `zeroAct` the net predicts class 0 for both, so the
accuracy is 1/2 in every epoch. -/
def dataA : List (Mat ℚ × Mat ℚ) := [([[0]], [[1], [0]]), ([[0]], [[0], [1]])]

/-- A concrete 2-layer network with sizes `[1, 1]`. -/
def netB : Network ℚ :=
  { sizes := [1, 1], biases := [[[0]]], weights := [[[0]]] }

/-- One example for `netB`, classified correctly even by the initial parameters. -/
def dataB : List (Mat ℚ × Mat ℚ) := [([[0]], [[1]])]

/-! Generic list and `Except` helper lemmas. -/

theorem ok_bind {β γ : Type} (a : β) (f : β → Except String γ) :
    (Except.ok a : Except String β) >>= f = f a := rfl

theorem error_bind {β γ : Type} (e : String) (f : β → Except String γ) :
    (Except.error e : Except String β) >>= f = Except.error e := rfl

theorem getLastD_eq_getD {β : Type} (d : β) :
    ∀ (l : List β), l ≠ [] → l.getLastD d = l.getD (l.length - 1) d
  | [], h => absurd rfl h
  | [a], _ => rfl
  | a :: b :: t, _ => by
      rw [List.getLastD_cons, getLastD_eq_getD a (b :: t) (by simp)]
      have h1 : (b :: t).length - 1 < (b :: t).length := by simp
      have h2 : (a :: b :: t).length - 1 < (a :: b :: t).length := by simp
      rw [List.getD_eq_getElem _ _ h1, List.getD_eq_getElem _ _ h2]
      have : (a :: b :: t).length - 1 = ((b :: t).length - 1) + 1 := by simp
      simp only [this, List.getElem_cons_succ]

theorem getLastD_congr {β : Type} (d₁ d₂ : β) :
    ∀ (l : List β), l ≠ [] → l.getLastD d₁ = l.getLastD d₂
  | [], h => absurd rfl h
  | a :: t, _ => by rw [List.getLastD_cons, List.getLastD_cons]

theorem set_take_append {β : Type} :
    ∀ (l : List β) (t : List β) (n : ℕ) (x : β), n < l.length →
      (l.take (n + 1) ++ t).set n x = l.take n ++ x :: t
  | [], _, n, _, h => absurd h (by simp)
  | a :: l, t, 0, x, _ => by simp
  | a :: l, t, n + 1, x, h => by
      have ih := set_take_append l t n x (by simpa using h)
      simp only [List.take_succ_cons, List.cons_append, List.set_cons_succ, ih]

theorem set_last_eq_take_append {β : Type} (l : List β) (x : β) (h : l ≠ []) :
    l.set (l.length - 1) x = l.take (l.length - 1) ++ [x] := by
  obtain ⟨n, hn⟩ : ∃ n, l.length = n + 1 :=
    ⟨l.length - 1, (Nat.succ_pred_eq_of_pos (List.length_pos.mpr h)).symm⟩
  have h1 : l.take (n + 1) = l := List.take_of_length_le (by omega)
  have := set_take_append l [] n x (by omega)
  rw [h1] at this
  simpa [hn] using this

theorem zipWith_eq_map_zip {β γ δ : Type} (f : β → γ → δ) :
    ∀ (l : List β) (m : List γ), List.zipWith f l m = (l.zip m).map (fun p => f p.1 p.2)
  | [], _ => by simp
  | _ :: _, [] => by simp
  | a :: l, b :: m => by simp [zipWith_eq_map_zip f l m]

theorem mapE_eq_ok {β γ : Type} (f : β → Except String γ) (g : β → γ) :
    ∀ (l : List β), (∀ x ∈ l, f x = .ok (g x)) → mapE f l = .ok (l.map g)
  | [], _ => rfl
  | x :: xs, h => by
      have hx := h x (by simp)
      have ih := mapE_eq_ok f g xs (fun a ha => h a (by simp [ha]))
      simp only [mapE, hx, ih, ok_bind]
      rfl

theorem mapE_ok_spec {β γ : Type} (f : β → Except String γ) :
    ∀ (l : List β) (out : List γ), mapE f l = .ok out →
      out.length = l.length ∧
      ∀ i (h1 : i < l.length) (h2 : i < out.length), f l[i] = .ok out[i]
  | [], out, h => by
      cases h
      exact ⟨rfl, fun i h1 _ => absurd h1 (by simp)⟩
  | x :: xs, out, h => by
      cases hx : f x with
      | error e => rw [mapE, hx, error_bind] at h; cases h
      | ok y =>
        cases hxs : mapE f xs with
        | error e => rw [mapE, hx, ok_bind, hxs, error_bind] at h; cases h
        | ok ys =>
          rw [mapE, hx, ok_bind, hxs, ok_bind] at h
          cases h
          obtain ⟨hlen, hpt⟩ := mapE_ok_spec f xs ys hxs
          refine ⟨by simp [hlen], fun i h1 h2 => ?_⟩
          cases i with
          | zero => simpa using hx
          | succ j => simpa using hpt j (by simpa using h1) (by simpa using h2)

/-! Shape lemmas for the matrix operations. -/

theorem shape_rows {m : Mat α} {r c : ℕ} (h : HasShape m r c) : m.length = r := h.1

theorem shape_row {m : Mat α} {r c : ℕ} (h : HasShape m r c) {i : ℕ} (hi : i < m.length) :
    m[i].length = c := h.2 _ (List.getElem_mem hi)

theorem numCols_of_shape {m : Mat α} {r c : ℕ} (h : HasShape m r c) (hr : 0 < r) :
    numCols m = c := by
  cases m with
  | nil => exact absurd h.1 (by simp; omega)
  | cons a t => exact h.2 a (by simp)

theorem mapMap_shape (g : α → α) {m : Mat α} {r c : ℕ} (h : HasShape m r c) :
    HasShape (m.map (fun row => row.map g)) r c := by
  refine ⟨by simp [h.1], fun row hrow => ?_⟩
  obtain ⟨orig, ho, rfl⟩ := List.mem_map.mp hrow
  simp [h.2 orig ho]

theorem zeroLike_shape {m : Mat α} {r c : ℕ} (h : HasShape m r c) :
    HasShape (zeroLike m) r c := mapMap_shape _ h

theorem sigmoidArr_shape (s : α → α) {m : Mat α} {r c : ℕ} (h : HasShape m r c) :
    HasShape (sigmoidArr s m) r c := mapMap_shape _ h

theorem sigmoidPrimeArr_shape (s : α → α) {m : Mat α} {r c : ℕ} (h : HasShape m r c) :
    HasShape (sigmoidPrimeArr s m) r c := mapMap_shape _ h

theorem smulT_shape (cst : α) {m : Mat α} {r c : ℕ} (h : HasShape m r c) :
    HasShape (smulT cst m) r c := mapMap_shape _ h

theorem zipWith2_shape (f : α → α → α) {A B : Mat α} {r c : ℕ}
    (hA : HasShape A r c) (hB : HasShape B r c) :
    HasShape (List.zipWith (List.zipWith f) A B) r c := by
  refine ⟨by simp [hA.1, hB.1], fun row hrow => ?_⟩
  obtain ⟨i, hi, rfl⟩ := List.mem_iff_getElem.mp hrow
  have hi' : i < A.length ⊓ B.length := by simpa using hi
  rw [List.getElem_zipWith]
  have hiA : i < A.length := lt_of_lt_of_le hi' (by simp)
  have hiB : i < B.length := lt_of_lt_of_le hi' (by simp)
  simp [shape_row hA hiA, shape_row hB hiB]

theorem addT_shape {A B : Mat α} {r c : ℕ} (hA : HasShape A r c) (hB : HasShape B r c) :
    HasShape (addT A B) r c := zipWith2_shape _ hA hB

theorem subT_shape {A B : Mat α} {r c : ℕ} (hA : HasShape A r c) (hB : HasShape B r c) :
    HasShape (subT A B) r c := zipWith2_shape _ hA hB

theorem hadT_shape {A B : Mat α} {r c : ℕ} (hA : HasShape A r c) (hB : HasShape B r c) :
    HasShape (hadT A B) r c := zipWith2_shape _ hA hB

theorem foldr_vecAdd_length (c : ℕ) :
    ∀ (l : List (List α)), (∀ v ∈ l, v.length = c) →
      (l.foldr vecAdd (List.replicate c (0 : α))).length = c
  | [], _ => by simp
  | v :: l, h => by
      have ih := foldr_vecAdd_length c l (fun w hw => h w (by simp [hw]))
      simp only [List.foldr_cons, vecAdd, List.length_zipWith, ih, h v (by simp)]
      omega

theorem matMulT_shape {A B : Mat α} {r k c : ℕ}
    (hA : HasShape A r k) (hB : HasShape B k c) (hk : 0 < k) :
    HasShape (matMulT A B) r c := by
  refine ⟨by simp [matMulT, hA.1], fun row hrow => ?_⟩
  simp only [matMulT, List.mem_map] at hrow
  obtain ⟨arow, ha, rfl⟩ := hrow
  rw [numCols_of_shape hB hk]
  refine foldr_vecAdd_length c _ (fun v hv => ?_)
  simp only [List.mem_iff_getElem] at hv
  obtain ⟨i, hi, rfl⟩ := hv
  rw [List.getElem_zipWith]
  have hiB : i < B.length := by
    simp only [List.length_zipWith] at hi
    omega
  simp [shape_row hB hiB]

theorem transposeT_shape {A : Mat α} {r c : ℕ} (hA : HasShape A r c) (hr : 0 < r) :
    HasShape (transposeT A) c r := by
  refine ⟨by simp [transposeT, numCols_of_shape hA hr], fun row hrow => ?_⟩
  simp only [transposeT, List.mem_map] at hrow
  obtain ⟨j, _, rfl⟩ := hrow
  simp [hA.1]

theorem dotM_ok {A B : Mat α} (h : numCols A = B.length) :
    dotM A B = .ok (matMulT A B) := by simp [dotM, h]

theorem dotM_err {A B : Mat α} (h : numCols A ≠ B.length) :
    dotM A B = .error "ValueError: shapes not aligned" := by simp [dotM, h]

theorem scalarDiv_ok {n : ℕ} (x : α) (h : n ≠ 0) :
    scalarDiv x n = .ok (x / (n : α)) := by simp [scalarDiv, h]

theorem scalarDiv_zero (x : α) : scalarDiv x 0 = .error "ZeroDivisionError" := rfl

theorem bop_ok (f : α → α → α) {A B : Mat α} {r c : ℕ}
    (hA : HasShape A r c) (hB : HasShape B r c) :
    bop f A B = .ok (List.zipWith (List.zipWith f) A B) := by
  rcases Nat.eq_zero_or_pos r with hr | hr
  · subst hr
    have hA0 : A = [] := List.length_eq_zero.mp hA.1
    have hB0 : B = [] := List.length_eq_zero.mp hB.1
    subst hA0; subst hB0
    rfl
  · have hcolA : numCols A = c := numCols_of_shape hA hr
    have hcolB : numCols B = c := numCols_of_shape hB hr
    have hbr : bDim A.length B.length = some r := by simp [bDim, hA.1, hB.1]
    have hbc : bDim (numCols A) (numCols B) = some c := by simp [bDim, hcolA, hcolB]
    have payload_eq : ((List.range r).map (fun i => (List.range c).map (fun j =>
        f (entry A (i % A.length) (j % numCols A)) (entry B (i % B.length) (j % numCols B))))) =
        List.zipWith (List.zipWith f) A B := by
      refine List.ext_getElem
        (by simp only [List.length_map, List.length_range, List.length_zipWith, hA.1, hB.1]; omega)
        (fun i hi1 hi2 => ?_)
      have hir : i < r := by simpa using hi1
      have hiA : i < A.length := by rw [hA.1]; exact hir
      have hiB : i < B.length := by rw [hB.1]; exact hir
      rw [List.getElem_map, List.getElem_range, List.getElem_zipWith]
      refine List.ext_getElem
        (by simp only [List.length_map, List.length_range, List.length_zipWith,
          shape_row hA hiA, shape_row hB hiB]; omega)
        (fun j hj1 hj2 => ?_)
      have hjc : j < c := by simpa using hj1
      rw [List.getElem_map, List.getElem_range, List.getElem_zipWith]
      have hmodi : i % A.length = i := Nat.mod_eq_of_lt hiA
      have hmodiB : i % B.length = i := Nat.mod_eq_of_lt hiB
      have hmodj : j % numCols A = j := by rw [hcolA]; exact Nat.mod_eq_of_lt hjc
      have hmodjB : j % numCols B = j := by rw [hcolB]; exact Nat.mod_eq_of_lt hjc
      rw [hmodi, hmodiB, hmodj, hmodjB]
      unfold entry
      rw [List.getD_eq_getElem _ _ hiA, List.getD_eq_getElem _ _ hiB,
        List.getD_eq_getElem _ _ (by rw [shape_row hA hiA]; exact hjc),
        List.getD_eq_getElem _ _ (by rw [shape_row hB hiB]; exact hjc)]
    rw [bop, hbr, hbc]
    exact congrArg Except.ok payload_eq

/-! Lemmas about the layer-shape chain. -/

theorem layers_len {d : ℕ} {bs ws : List (Mat α)} {szs : List ℕ} (h : Layers d bs ws szs) :
    bs.length = szs.length ∧ ws.length = szs.length := by
  induction h with
  | nil => simp
  | cons _ _ _ ih => simp [ih.1, ih.2]

theorem layers_getD {d : ℕ} {bs ws : List (Mat α)} {szs : List ℕ} (h : Layers d bs ws szs) :
    ∀ i < szs.length,
      HasShape (ws.getD i []) (szs.getD i 0) ((d :: szs).getD i 0) ∧
      HasShape (bs.getD i []) (szs.getD i 0) 1 := by
  induction h with
  | nil => intro i hi; exact absurd hi (by simp)
  | @cons d n b w bs ws szs hw hb hrest ih =>
      intro i hi
      cases i with
      | zero => simpa using ⟨hw, hb⟩
      | succ j =>
          have := ih j (by simpa using hi)
          simpa using this

theorem layers_of_indexed :
    ∀ (szs : List ℕ) (d : ℕ) (bs ws : List (Mat α)),
      bs.length = szs.length → ws.length = szs.length →
      (∀ i < szs.length,
        HasShape (ws.getD i []) (szs.getD i 0) ((d :: szs).getD i 0) ∧
        HasShape (bs.getD i []) (szs.getD i 0) 1) →
      Layers d bs ws szs
  | [], d, bs, ws, hb, hw, _ => by
      have hb0 : bs = [] := List.length_eq_zero.mp (by simpa using hb)
      have hw0 : ws = [] := List.length_eq_zero.mp (by simpa using hw)
      subst hb0; subst hw0
      exact Layers.nil d
  | n :: szs, d, [], ws, hb, _, _ => by simp at hb
  | n :: szs, d, b :: bs, [], _, hw, _ => by simp at hw
  | n :: szs, d, b :: bs, w :: ws, hb, hw, h => by
      have h0 := h 0 (by simp)
      refine Layers.cons (by simpa using h0.1) (by simpa using h0.2) ?_
      refine layers_of_indexed szs n bs ws (by simpa using hb) (by simpa using hw) ?_
      intro i hi
      have := h (i + 1) (by simpa using hi)
      simpa using this

/-! Forward-pass lemmas. -/

theorem forwardPairsT_facts (s : α → α) {d : ℕ} {bs ws : List (Mat α)} {szs : List ℕ}
    (hL : Layers d bs ws szs) :
    (∀ m ∈ szs, 0 < m) → 0 < d → ∀ {a : Mat α}, HasShape a d 1 →
      (forwardPairsT s (bs.zip ws) a).1.length = szs.length ∧
      (forwardPairsT s (bs.zip ws) a).2.length = szs.length ∧
      ∀ i < szs.length,
        HasShape ((forwardPairsT s (bs.zip ws) a).1.getD i []) (szs.getD i 0) 1 ∧
        HasShape ((forwardPairsT s (bs.zip ws) a).2.getD i []) (szs.getD i 0) 1 := by
  induction hL with
  | nil => intro _ _ a ha; exact ⟨rfl, rfl, fun i hi => absurd hi (by simp)⟩
  | @cons d n b w bs ws szs hw hb hrest ih =>
      intro hpos hd a ha
      have hn : 0 < n := hpos n (by simp)
      have hz : HasShape (addT (matMulT w a) b) n 1 := addT_shape (matMulT_shape hw ha hd) hb
      have ha' : HasShape (sigmoidArr s (addT (matMulT w a) b)) n 1 := sigmoidArr_shape s hz
      have ihx := ih (fun m hm => hpos m (by simp [hm])) hn ha'
      simp only [List.zip_cons_cons, forwardPairsT]
      refine ⟨by simpa using ihx.1, by simpa using ihx.2.1, fun i hi => ?_⟩
      cases i with
      | zero => exact ⟨by simpa using ha', by simpa using hz⟩
      | succ j =>
          have := ihx.2.2 j (by simpa using hi)
          simpa using this

theorem ffT_shape (s : α → α) {d : ℕ} {bs ws : List (Mat α)} {szs : List ℕ}
    (hL : Layers d bs ws szs) :
    (∀ m ∈ szs, 0 < m) → 0 < d → ∀ {a : Mat α}, HasShape a d 1 →
      HasShape (ffT s (bs.zip ws) a) ((d :: szs).getLastD 0) 1 := by
  induction hL with
  | nil => intro _ _ a ha; simpa [ffT] using ha
  | @cons d n b w bs ws szs hw hb hrest ih =>
      intro hpos hd a ha
      have hn : 0 < n := hpos n (by simp)
      have hz : HasShape (addT (matMulT w a) b) n 1 := addT_shape (matMulT_shape hw ha hd) hb
      have ihx := ih (fun m hm => hpos m (by simp [hm])) hn (sigmoidArr_shape s hz)
      simp only [List.zip_cons_cons, ffT]
      rw [List.getLastD_cons, List.getLastD_cons]
      rw [List.getLastD_cons] at ihx
      exact ihx

theorem activations_getLastD (s : α → α) :
    ∀ (pairs : List (Mat α × Mat α)) (a : Mat α),
      (a :: (forwardPairsT s pairs a).1).getLastD [] = ffT s pairs a
  | [], a => rfl
  | bw :: rest, a => by
      have ih := activations_getLastD s rest (sigmoidArr s (addT (matMulT bw.2 a) bw.1))
      rw [List.getLastD_cons] at ih
      simp only [forwardPairsT, ffT]
      rw [List.getLastD_cons, List.getLastD_cons]
      exact ih

theorem ffStep_eq (s : α → α) {n d : ℕ} {b w a : Mat α}
    (hw : HasShape w n d) (hb : HasShape b n 1) (ha : HasShape a d 1) (hd : 0 < d) (hn : 0 < n) :
    ffStep s a (b, w) = .ok (sigmoidArr s (addT (matMulT w a) b)) := by
  have hdot : numCols w = a.length := by rw [numCols_of_shape hw hn, shape_rows ha]
  simp only [ffStep]
  rw [dotM_ok hdot, ok_bind, bop_ok (· + ·) (matMulT_shape hw ha hd) hb, ok_bind]
  rfl

theorem ff_foldlM (s : α → α) {d : ℕ} {bs ws : List (Mat α)} {szs : List ℕ}
    (hL : Layers d bs ws szs) :
    (∀ m ∈ szs, 0 < m) → 0 < d → ∀ {a : Mat α}, HasShape a d 1 →
      (bs.zip ws).foldlM (ffStep s) a = .ok (ffT s (bs.zip ws) a) := by
  induction hL with
  | nil => intro _ _ a ha; rfl
  | @cons d n b w bs ws szs hw hb hrest ih =>
      intro hpos hd a ha
      have hn : 0 < n := hpos n (by simp)
      have hz : HasShape (addT (matMulT w a) b) n 1 := addT_shape (matMulT_shape hw ha hd) hb
      simp only [List.zip_cons_cons, List.foldlM_cons, ffStep_eq s hw hb ha hd hn, ok_bind]
      simp only [ffT]
      exact ih (fun m hm => hpos m (by simp [hm])) hn (sigmoidArr_shape s hz)

theorem fwdStep_eq (s : α → α) {n d : ℕ} {b w a : Mat α} (accA accZ : List (Mat α))
    (hw : HasShape w n d) (hb : HasShape b n 1) (ha : HasShape a d 1) (hd : 0 < d) (hn : 0 < n) :
    fwdStep s (a, accA, accZ) (b, w) =
      .ok (sigmoidArr s (addT (matMulT w a) b),
           accA ++ [sigmoidArr s (addT (matMulT w a) b)],
           accZ ++ [addT (matMulT w a) b]) := by
  have hdot : numCols w = a.length := by rw [numCols_of_shape hw hn, shape_rows ha]
  simp only [fwdStep]
  rw [dotM_ok hdot, ok_bind, bop_ok (· + ·) (matMulT_shape hw ha hd) hb, ok_bind]
  rfl

theorem fwd_foldlM (s : α → α) {d : ℕ} {bs ws : List (Mat α)} {szs : List ℕ}
    (hL : Layers d bs ws szs) :
    (∀ m ∈ szs, 0 < m) → 0 < d → ∀ {a : Mat α}, HasShape a d 1 →
      ∀ (accA accZ : List (Mat α)),
      (bs.zip ws).foldlM (fwdStep s) (a, accA, accZ) =
        .ok (ffT s (bs.zip ws) a, accA ++ (forwardPairsT s (bs.zip ws) a).1,
             accZ ++ (forwardPairsT s (bs.zip ws) a).2) := by
  induction hL with
  | nil => intro _ _ a ha accA accZ; simp [forwardPairsT, ffT]; rfl
  | @cons d n b w bs ws szs hw hb hrest ih =>
      intro hpos hd a ha accA accZ
      have hn : 0 < n := hpos n (by simp)
      have hz : HasShape (addT (matMulT w a) b) n 1 := addT_shape (matMulT_shape hw ha hd) hb
      simp only [List.zip_cons_cons, List.foldlM_cons, fwdStep_eq s accA accZ hw hb ha hd hn,
        ok_bind]
      rw [ih (fun m hm => hpos m (by simp [hm])) hn (sigmoidArr_shape s hz)]
      simp [forwardPairsT, ffT]

/-! Well-formedness unpacking and `feedforward`. -/

theorem WF_parts {net : Network α} (h : WF net) :
    ∃ d szs, net.sizes = d :: szs ∧ szs ≠ [] ∧ 0 < d ∧ (∀ m ∈ szs, 0 < m) ∧
      Layers d net.biases net.weights szs ∧ net.sizes.headD 0 = d ∧
      net.sizes.getLastD 0 = szs.getLastD 0 := by
  obtain ⟨hlen, hpos, hlay⟩ := h
  cases hs : net.sizes with
  | nil => rw [hs] at hlen; simp at hlen
  | cons d szs =>
      refine ⟨d, szs, rfl, ?_, ?_, ?_, ?_, by simp, ?_⟩
      · intro h0
        rw [hs, h0] at hlen
        simp at hlen
      · exact hpos d (by rw [hs]; simp)
      · exact fun m hm => hpos m (by rw [hs]; simp [hm])
      · rw [hs] at hlay; simpa using hlay
      · have hne : szs ≠ [] := by
          intro h0
          rw [hs, h0] at hlen
          simp at hlen
        rw [List.getLastD_cons]
        exact getLastD_congr d 0 szs hne

theorem feedforward_eq (s : α → α) {net : Network α} (h : WF net) {x : Mat α}
    (hx : HasShape x (net.sizes.headD 0) 1) :
    feedforward s net x = .ok (ffT s (net.biases.zip net.weights) x) := by
  obtain ⟨d, szs, hs, hne, hd, hpos, hlay, hhead, _⟩ := WF_parts h
  rw [hhead] at hx
  exact ff_foldlM s hlay hpos hd hx

theorem ffT_out_shape (s : α → α) {net : Network α} (h : WF net) {x : Mat α}
    (hx : HasShape x (net.sizes.headD 0) 1) :
    HasShape (ffT s (net.biases.zip net.weights) x) (net.sizes.getLastD 0) 1 := by
  obtain ⟨d, szs, hs, hne, hd, hpos, hlay, hhead, hlast⟩ := WF_parts h
  rw [hhead] at hx
  have := ffT_shape s hlay hpos hd hx
  rw [List.getLastD_cons, getLastD_congr d 0 szs hne] at this
  rwa [hlast]

/-! The argmax specification: first index attaining the maximum. -/

theorem getD_snoc_lt {l : List α} {j : ℕ} (v : α) (d : α) (h : j < l.length) :
    (l ++ [v]).getD j d = l.getD j d := by
  rw [List.getD_eq_getElem _ _ (by simp; omega), List.getD_eq_getElem _ _ h]
  exact List.getElem_append_left h

theorem getD_snoc_len (l : List α) (v : α) (d : α) :
    (l ++ [v]).getD l.length d = v := by
  rw [List.getD_eq_getElem _ _ (by simp)]
  simp

theorem argmaxAux_spec :
    ∀ (rest pre : List α) (bv : α) (best : ℕ),
      best < pre.length → pre.getD best 0 = bv →
      (∀ j < pre.length, pre.getD j 0 ≤ bv) → (∀ j < best, pre.getD j 0 < bv) →
      IsLeastArgmax (pre ++ rest) (argmaxAux rest pre.length bv best)
  | [], pre, bv, best, h1, h2, h3, h4 => by
      simp only [argmaxAux]
      refine ⟨by simpa using h1, fun j hj => ?_, fun j hj => ?_⟩
      · rw [List.append_nil] at hj ⊢
        rw [h2]
        exact h3 j hj
      · rw [List.append_nil]
        rw [h2]
        exact h4 j hj
  | v :: rest, pre, bv, best, h1, h2, h3, h4 => by
      rw [argmaxAux]
      by_cases hc : bv < v
      · rw [if_pos hc]
        have key := argmaxAux_spec rest (pre ++ [v]) v pre.length
          (by simp) (getD_snoc_len pre v 0)
          (fun j hj => by
            rcases Nat.lt_or_ge j pre.length with hjl | hjl
            · rw [getD_snoc_lt v 0 hjl]
              exact le_of_lt (lt_of_le_of_lt (h3 j hjl) hc)
            · have hj' : j = pre.length := by simp at hj; omega
              rw [hj', getD_snoc_len])
          (fun j hj => by
            rw [getD_snoc_lt v 0 hj]
            exact lt_of_le_of_lt (h3 j hj) hc)
        rw [List.length_append, List.length_singleton] at key
        rw [List.append_assoc, List.singleton_append] at key
        exact key
      · rw [if_neg hc]
        have hvb : v ≤ bv := le_of_not_lt hc
        have key := argmaxAux_spec rest (pre ++ [v]) bv best
          (by simp; omega) (by rw [getD_snoc_lt v 0 h1]; exact h2)
          (fun j hj => by
            rcases Nat.lt_or_ge j pre.length with hjl | hjl
            · rw [getD_snoc_lt v 0 hjl]
              exact h3 j hjl
            · have hj' : j = pre.length := by simp at hj; omega
              rw [hj', getD_snoc_len]
              exact hvb)
          (fun j hj => by
            rw [getD_snoc_lt v 0 (lt_trans hj h1)]
            exact h4 j hj)
        rw [List.length_append, List.length_singleton] at key
        rw [List.append_assoc, List.singleton_append] at key
        exact key

theorem argmaxList_spec (l : List α) (h : l ≠ []) : IsLeastArgmax l (argmaxList l) := by
  cases l with
  | nil => exact absurd rfl h
  | cons v rest =>
      have key := argmaxAux_spec rest [v] v 0 (by simp) rfl
        (fun j hj => by
          have : j = 0 := by simpa using hj
          simp [this])
        (fun j hj => absurd hj (by omega))
      simpa using key

/-! Lemmas for `evaluate`. -/

theorem evaluate_true_eq (s : α → α) {net : Network α} (h : WF net)
    {data : List (Mat α × Mat α)} (hD : DataOK net data) :
    evaluate s net data true = .ok (Sum.inl
      ((data.map (fun p =>
        if argmaxA (ffT s (net.biases.zip net.weights) p.1) = argmaxA p.2 then 1 else 0)).sum)) := by
  have hmap := mapE_eq_ok
    (fun p : Mat α × Mat α => do
      let out ← feedforward s net p.1
      pure (argmaxA out, argmaxA p.2))
    (fun p => (argmaxA (ffT s (net.biases.zip net.weights) p.1), argmaxA p.2))
    data
    (fun p hp => by dsimp only; rw [feedforward_eq s h (hD p hp).1, ok_bind]; rfl)
  rw [evaluate, hmap, ok_bind]
  simp only [List.map_map]
  rfl

theorem evaluate_false_eq (s : α → α) {net : Network α} (h : WF net)
    {data : List (Mat α × Mat α)} (hD : DataOK net data) :
    evaluate s net data false =
      .ok (Sum.inr (data.map (fun p => ffT s (net.biases.zip net.weights) p.1))) := by
  have hmap := mapE_eq_ok
    (fun p : Mat α × Mat α => do
      let out ← feedforward s net p.1
      pure (argmaxA out, argmaxA p.2))
    (fun p => (argmaxA (ffT s (net.biases.zip net.weights) p.1), argmaxA p.2))
    data
    (fun p hp => by dsimp only; rw [feedforward_eq s h (hD p hp).1, ok_bind]; rfl)
  have hmap2 := mapE_eq_ok
    (fun p : Mat α × Mat α => feedforward s net p.1)
    (fun p => ffT s (net.biases.zip net.weights) p.1)
    data
    (fun p hp => by dsimp only; exact feedforward_eq s h (hD p hp).1)
  rw [evaluate, hmap, ok_bind]
  simp only [Bool.false_eq_true, if_false, hmap2, ok_bind]
  rfl

theorem bop_add_ok {A B : Mat α} {r c : ℕ} (hA : HasShape A r c) (hB : HasShape B r c) :
    bop (· + ·) A B = .ok (addT A B) := bop_ok (· + ·) hA hB

theorem bop_sub_ok {A B : Mat α} {r c : ℕ} (hA : HasShape A r c) (hB : HasShape B r c) :
    bop (· - ·) A B = .ok (subT A B) := bop_ok (· - ·) hA hB

theorem bop_mul_ok {A B : Mat α} {r c : ℕ} (hA : HasShape A r c) (hB : HasShape B r c) :
    bop (· * ·) A B = .ok (hadT A B) := bop_ok (· * ·) hA hB

/-! Indexed-access utilities used by the backward-pass proof. -/

theorem headD_eq_getD {β : Type} (l : List β) (dft : β) : l.headD dft = l.getD 0 dft := by
  cases l <;> rfl

theorem getD_zipWith {β γ δ : Type} (f : β → γ → δ) (a : List β) (b : List γ) (j : ℕ)
    (db : β) (dc : γ) (dd : δ) (hja : j < a.length) (hjb : j < b.length) :
    (List.zipWith f a b).getD j dd = f (a.getD j db) (b.getD j dc) := by
  rw [List.getD_eq_getElem _ _ (by simp; omega), List.getD_eq_getElem _ _ hja,
    List.getD_eq_getElem _ _ hjb]
  exact List.getElem_zipWith

theorem getD_zip {β γ : Type} (a : List β) (b : List γ) (j : ℕ) (db : β) (dc : γ)
    (hja : j < a.length) (hjb : j < b.length) :
    (a.zip b).getD j (db, dc) = (a.getD j db, b.getD j dc) :=
  getD_zipWith Prod.mk a b j db dc (db, dc) hja hjb

theorem getD_drop_one {β : Type} (l : List β) (j : ℕ) (d : β) (h : j + 1 < l.length) :
    (l.drop 1).getD j d = l.getD (j + 1) d := by
  rw [List.getD_eq_getElem _ _ (by simp; omega), List.getD_eq_getElem _ _ h]
  rw [List.getElem_drop l]
  congr 1
  omega

theorem getD_dropLast {β : Type} (l : List β) (j : ℕ) (d : β) (h : j < l.length - 1) :
    l.dropLast.getD j d = l.getD j d := by
  rw [List.getD_eq_getElem _ _ (by simp; omega), List.getD_eq_getElem _ _ (by omega)]
  exact List.getElem_dropLast l j _

theorem getD_cons_drop {β : Type} (l : List β) (i : ℕ) (d : β) (h : i < l.length) :
    l.getD i d :: l.drop (i + 1) = l.drop i := by
  rw [List.getD_eq_getElem _ _ h]
  exact (List.drop_eq_getElem_cons h).symm

theorem drop_pred {β : Type} (l : List β) (n : ℕ) (d : β) (h : n + 1 = l.length) :
    l.drop n = [l.getD n d] := by
  rw [List.drop_eq_getElem_cons (by omega), List.getD_eq_getElem _ _ (by omega)]
  rw [List.drop_eq_nil_of_le (by omega)]

/-! Structure of the specification-side backward recursion `backDeltas`. -/

theorem backDeltas_length (s : α → α) :
    ∀ (pairs : List (Mat α × Mat α)) (top : Mat α),
      (backDeltas s pairs top).length = pairs.length + 1
  | [], top => rfl
  | wz :: rest, top => by simp [backDeltas, backDeltas_length s rest top]

theorem backDeltas_getD_last (s : α → α) :
    ∀ (pairs : List (Mat α × Mat α)) (top : Mat α),
      (backDeltas s pairs top).getD pairs.length [] = top
  | [], top => rfl
  | wz :: rest, top => by
      simp only [backDeltas, List.length_cons, List.getD_cons_succ]
      exact backDeltas_getD_last s rest top

theorem backDeltas_getD (s : α → α) :
    ∀ (pairs : List (Mat α × Mat α)) (top : Mat α) (j : ℕ), j < pairs.length →
      (backDeltas s pairs top).getD j [] =
        hadT (matMulT (transposeT (pairs.getD j ([], [])).1)
              ((backDeltas s pairs top).getD (j + 1) []))
          (sigmoidPrimeArr s (pairs.getD j ([], [])).2)
  | [], top, j, hj => absurd hj (by simp)
  | wz :: rest, top, 0, _ => by
      simp only [backDeltas, List.getD_cons_zero, List.getD_cons_succ]
      rw [headD_eq_getD]
  | wz :: rest, top, j + 1, hj => by
      simp only [backDeltas, List.getD_cons_succ]
      exact backDeltas_getD s rest top j (by simpa using hj)

theorem backDeltas_shape (s : α → α) :
    ∀ (pairs : List (Mat α × Mat α)) (dims : List ℕ) (top : Mat α),
      pairs.length + 1 = dims.length →
      (∀ i < dims.length, 0 < dims.getD i 0) →
      (∀ j < pairs.length,
        HasShape (pairs.getD j ([], [])).1 (dims.getD (j + 1) 0) (dims.getD j 0) ∧
        HasShape (pairs.getD j ([], [])).2 (dims.getD j 0) 1) →
      HasShape top (dims.getLastD 0) 1 →
      ∀ j < dims.length, HasShape ((backDeltas s pairs top).getD j []) (dims.getD j 0) 1
  | [], dims, top, hlen, hpos, hsh, htop, j, hj => by
      obtain ⟨m, rfl⟩ : ∃ m, dims = [m] := by
        cases dims with
        | nil => simp at hlen
        | cons m rest =>
            cases rest with
            | nil => exact ⟨m, rfl⟩
            | cons _ _ => simp at hlen
      have hj0 : j = 0 := by simpa using hj
      subst hj0
      simpa [backDeltas] using htop
  | wz :: rest, dims, top, hlen, hpos, hsh, htop, j, hj => by
      obtain ⟨m, dims', rfl⟩ : ∃ m dims', dims = m :: dims' := by
        cases dims with
        | nil => simp at hlen
        | cons m dims' => exact ⟨m, dims', rfl⟩
      have hlen' : rest.length + 1 = dims'.length := by simpa using hlen
      have hd'ne : dims' ≠ [] := by
        intro h0
        rw [h0] at hlen'
        simp at hlen'
      have ih := backDeltas_shape s rest dims' top hlen'
        (fun i hi => hpos (i + 1) (by simpa using hi))
        (fun i hi => by
          have := hsh (i + 1) (by simpa using hi)
          simpa using this)
        (by rwa [List.getLastD_cons, getLastD_congr m 0 dims' hd'ne] at htop)
      cases j with
      | succ i =>
          simp only [backDeltas, List.getD_cons_succ]
          exact ih i (by simpa using hj)
      | zero =>
          simp only [backDeltas, List.getD_cons_zero, List.getD_cons_zero]
          have h0 := hsh 0 (by simp)
          simp only [List.getD_cons_zero, List.getD_cons_succ] at h0
          have hd0 : 0 < dims'.getD 0 0 := hpos 1 (by simp; omega)
          have hm : 0 < m := hpos 0 (by simp)
          have hds0 : HasShape ((backDeltas s rest top).headD []) (dims'.getD 0 0) 1 := by
            rw [headD_eq_getD]
            exact ih 0 (by omega)
          exact hadT_shape
            (matMulT_shape (transposeT_shape h0.1 hd0) hds0 hd0)
            (sigmoidPrimeArr_shape s h0.2)

/-! Reduction of the backward loop of `backprop`. -/

theorem backStep_eq (s : α → α) {zs acts ws : List (Mat α)} {dims : ℕ → ℕ} {L : ℕ}
    (hzs : zs.length = L) (hacts : acts.length = L + 1) (hws : ws.length = L)
    (hpos : ∀ i ≤ L, 0 < dims i)
    (hshape_w : ∀ j < L, HasShape (ws.getD j []) (dims (j + 1)) (dims j))
    (hshape_zs : ∀ j < L, HasShape (zs.getD j []) (dims (j + 1)) 1)
    (hshape_acts : ∀ j ≤ L, HasShape (acts.getD j []) (dims j) 1)
    {delta : Mat α} {n : ℕ} (hn : 1 ≤ n) (hnL : n < L)
    (hdelta : HasShape delta (dims (n + 1)) 1)
    (nb nw : List (Mat α)) :
    backStep s zs acts ws (delta, nb, nw) (L + 1 - n) =
      .ok (hadT (matMulT (transposeT (ws.getD n [])) delta)
             (sigmoidPrimeArr s (zs.getD (n - 1) [])),
           nb.set (nb.length - (L + 1 - n))
             (hadT (matMulT (transposeT (ws.getD n [])) delta)
               (sigmoidPrimeArr s (zs.getD (n - 1) []))),
           nw.set (nw.length - (L + 1 - n))
             (matMulT
               (hadT (matMulT (transposeT (ws.getD n [])) delta)
                 (sigmoidPrimeArr s (zs.getD (n - 1) [])))
               (transposeT (acts.getD (n - 1) [])))) := by
  have hnp : 0 < dims n := hpos n (by omega)
  have hnp1 : 0 < dims (n + 1) := hpos (n + 1) (by omega)
  have hnm1 : 0 < dims (n - 1) := hpos (n - 1) (by omega)
  have hwn := hshape_w n hnL
  have hzn := hshape_zs (n - 1) (by omega)
  have han := hshape_acts (n - 1) (by omega)
  have hsucc : n - 1 + 1 = n := by omega
  rw [hsucc] at hzn
  have e1 : zs.length - (L + 1 - n) = n - 1 := by omega
  have e2 : ws.length + 1 - (L + 1 - n) = n := by omega
  have e3 : acts.length - (L + 1 - n) - 1 = n - 1 := by omega
  have hwT : HasShape (transposeT (ws.getD n [])) (dims n) (dims (n + 1)) :=
    transposeT_shape hwn hnp1
  have hdot1 : numCols (transposeT (ws.getD n [])) = delta.length := by
    rw [numCols_of_shape hwT hnp, shape_rows hdelta]
  have hmd : HasShape (matMulT (transposeT (ws.getD n [])) delta) (dims n) 1 :=
    matMulT_shape hwT hdelta hnp1
  have hdel' : HasShape (hadT (matMulT (transposeT (ws.getD n [])) delta)
      (sigmoidPrimeArr s (zs.getD (n - 1) []))) (dims n) 1 :=
    hadT_shape hmd (sigmoidPrimeArr_shape s hzn)
  have haT : HasShape (transposeT (acts.getD (n - 1) [])) 1 (dims (n - 1)) :=
    transposeT_shape han hnm1
  have hdot2 : numCols (hadT (matMulT (transposeT (ws.getD n [])) delta)
      (sigmoidPrimeArr s (zs.getD (n - 1) []))) = (transposeT (acts.getD (n - 1) [])).length := by
    rw [numCols_of_shape hdel' hnp, shape_rows haT]
  simp only [backStep, e1, e2, e3]
  rw [dotM_ok hdot1, ok_bind, bop_mul_ok hmd (sigmoidPrimeArr_shape s hzn), ok_bind,
    dotM_ok hdot2, ok_bind]
  rfl

set_option maxHeartbeats 1000000 in
theorem back_foldlM (s : α → α) {zs acts ws ds wg zb zw : List (Mat α)} {dims : ℕ → ℕ}
    {L : ℕ}
    (hzs : zs.length = L) (hacts : acts.length = L + 1) (hws : ws.length = L)
    (hds_len : ds.length = L) (hwg_len : wg.length = L)
    (hzb : zb.length = L) (hzw : zw.length = L)
    (hpos : ∀ i ≤ L, 0 < dims i)
    (hshape_w : ∀ j < L, HasShape (ws.getD j []) (dims (j + 1)) (dims j))
    (hshape_zs : ∀ j < L, HasShape (zs.getD j []) (dims (j + 1)) 1)
    (hshape_acts : ∀ j ≤ L, HasShape (acts.getD j []) (dims j) 1)
    (hshape_ds : ∀ j < L, HasShape (ds.getD j []) (dims (j + 1)) 1)
    (hds : ∀ j, j + 1 < L →
      ds.getD j [] = hadT (matMulT (transposeT (ws.getD (j + 1) [])) (ds.getD (j + 1) []))
        (sigmoidPrimeArr s (zs.getD j [])))
    (hwg : ∀ j < L, wg.getD j [] = matMulT (ds.getD j []) (transposeT (acts.getD j []))) :
    ∀ (m t : ℕ), m + t + 1 = L →
      (List.range' (2 + t) m).foldlM (backStep s zs acts ws)
        (ds.getD (L - 1 - t) [], zb.take (L - 1 - t) ++ ds.drop (L - 1 - t),
         zw.take (L - 1 - t) ++ wg.drop (L - 1 - t)) =
      .ok (ds.getD 0 [], ds, wg) := by
  intro m
  induction m with
  | zero =>
      intro t hmt
      have ht : L - 1 - t = 0 := by omega
      rw [ht]
      simp only [List.range'_zero, List.foldlM_nil, List.take_zero, List.drop_zero,
        List.nil_append]
      rfl
  | succ m ih =>
      intro t hmt
      have hn1 : 1 ≤ L - 1 - t := by omega
      have hnL : L - 1 - t < L := by omega
      set n := L - 1 - t with hndef
      have hrange : List.range' (2 + t) (m + 1) = (2 + t) :: List.range' (2 + (t + 1)) m := by
        have : 2 + t + 1 = 2 + (t + 1) := by omega
        rw [List.range'_succ, this]
      have el : 2 + t = L + 1 - n := by omega
      have hstep := backStep_eq s hzs hacts hws hpos hshape_w hshape_zs hshape_acts
        hn1 hnL (hshape_ds n hnL)
        (zb.take n ++ ds.drop n) (zw.take n ++ wg.drop n)
      -- the freshly produced delta is the claimed delta of transition n-1
      have hsucc : n - 1 + 1 = n := by omega
      have hdelta' : hadT (matMulT (transposeT (ws.getD n [])) (ds.getD n []))
          (sigmoidPrimeArr s (zs.getD (n - 1) [])) = ds.getD (n - 1) [] := by
        have := hds (n - 1) (by omega)
        rw [hsucc] at this
        exact this.symm
      have hlen_nb : (zb.take n ++ ds.drop n).length = L := by
        simp only [List.length_append, List.length_take, List.length_drop, hzb, hds_len]
        omega
      have hlen_nw : (zw.take n ++ wg.drop n).length = L := by
        simp only [List.length_append, List.length_take, List.length_drop, hzw, hwg_len]
        omega
      have hp_nb : (zb.take n ++ ds.drop n).length - (L + 1 - n) = n - 1 := by
        rw [hlen_nb]; omega
      have hp_nw : (zw.take n ++ wg.drop n).length - (L + 1 - n) = n - 1 := by
        rw [hlen_nw]; omega
      have hcd_ds : ds.getD (n - 1) [] :: ds.drop n = ds.drop (n - 1) := by
        have hgen := getD_cons_drop ds (n - 1) [] (by omega)
        rwa [hsucc] at hgen
      have hcd_wg : wg.getD (n - 1) [] :: wg.drop n = wg.drop (n - 1) := by
        have hgen := getD_cons_drop wg (n - 1) [] (by omega)
        rwa [hsucc] at hgen
      have hset_nb : (zb.take n ++ ds.drop n).set (n - 1) (ds.getD (n - 1) []) =
          zb.take (n - 1) ++ ds.drop (n - 1) := by
        have htk : zb.take n = zb.take ((n - 1) + 1) := by rw [hsucc]
        rw [htk, set_take_append zb (ds.drop n) (n - 1) _ (by omega)]
        rw [← hcd_ds]
      have hset_nw : (zw.take n ++ wg.drop n).set (n - 1) (wg.getD (n - 1) []) =
          zw.take (n - 1) ++ wg.drop (n - 1) := by
        have htk : zw.take n = zw.take ((n - 1) + 1) := by rw [hsucc]
        rw [htk, set_take_append zw (wg.drop n) (n - 1) _ (by omega)]
        rw [← hcd_wg]
      have hwg' : matMulT (ds.getD (n - 1) []) (transposeT (acts.getD (n - 1) [])) =
          wg.getD (n - 1) [] := (hwg (n - 1) (by omega)).symm
      rw [hrange, List.foldlM_cons, el, hstep, ok_bind]
      rw [hdelta', hp_nb, hp_nw, hset_nb, hwg', hset_nw]
      have ht' : n - 1 = L - 1 - (t + 1) := by omega
      rw [ht']
      exact ih (t + 1) (by omega)

/-- Workhorse lemma: on a well-formed network and a correctly-shaped example, `backprop`
succeeds and returns exactly the claimed per-layer gradients, whose shapes match the
parameter shapes. -/
theorem backprop_master (s : α → α) {net : Network α} (h : WF net) {x y : Mat α}
    (hx0 : HasShape x (net.sizes.headD 0) 1)
    (hy0 : HasShape y (net.sizes.getLastD 0) 1) :
    backprop s net x y = .ok (nablaBT s net x y, nablaWT s net x y) ∧
    (nablaBT s net x y).length = net.sizes.length - 1 ∧
    (nablaWT s net x y).length = net.sizes.length - 1 ∧
    (∀ j < net.sizes.length - 1,
      HasShape ((nablaBT s net x y).getD j []) ((net.sizes.drop 1).getD j 0) 1 ∧
      HasShape ((nablaWT s net x y).getD j [])
        ((net.sizes.drop 1).getD j 0) (net.sizes.getD j 0)) ∧
    ((deltasT s net x y).getD (net.sizes.length - 2) [] =
      hadT (subT ((activationsT s net x).getLastD []) y)
        (sigmoidPrimeArr s ((zsT s net x).getLastD []))) ∧
    (∀ j, j + 1 < net.sizes.length - 1 →
      (deltasT s net x y).getD j [] =
        hadT (matMulT (transposeT (net.weights.getD (j + 1) []))
          ((deltasT s net x y).getD (j + 1) []))
          (sigmoidPrimeArr s ((zsT s net x).getD j []))) ∧
    ∀ j < net.sizes.length - 1,
      (nablaWT s net x y).getD j [] =
        matMulT ((deltasT s net x y).getD j [])
          (transposeT ((activationsT s net x).getD j [])) := by
  obtain ⟨d, szs, hs, hne, hd, hposs, hlay, hhead, hlast⟩ := WF_parts h
  have hL1 : 1 ≤ szs.length := List.length_pos.mpr hne
  have hx : HasShape x d 1 := by rw [hhead] at hx0; exact hx0
  have hy : HasShape y (szs.getLastD 0) 1 := by rw [hlast] at hy0; exact hy0
  have hlens := layers_len hlay
  have hfp := forwardPairsT_facts s hlay hposs hd hx
  have hposd : ∀ i ≤ szs.length, 0 < (d :: szs).getD i 0 := by
    intro i hi
    cases i with
    | zero => simpa using hd
    | succ j =>
        have hj : j < szs.length := by omega
        simp only [List.getD_cons_succ]
        rw [List.getD_eq_getElem _ _ hj]
        exact hposs _ (List.getElem_mem hj)
  have hacts_shape : ∀ j ≤ szs.length,
      HasShape ((x :: (forwardPairsT s (net.biases.zip net.weights) x).1).getD j [])
        ((d :: szs).getD j 0) 1 := by
    intro j hj
    cases j with
    | zero => simpa using hx
    | succ i =>
        simp only [List.getD_cons_succ]
        exact (hfp.2.2 i (by omega)).1
  have hzs_shape : ∀ j < szs.length,
      HasShape ((forwardPairsT s (net.biases.zip net.weights) x).2.getD j [])
        ((d :: szs).getD (j + 1) 0) 1 := by
    intro j hj
    simp only [List.getD_cons_succ]
    exact (hfp.2.2 j hj).2
  have hw_shape : ∀ j < szs.length,
      HasShape (net.weights.getD j []) ((d :: szs).getD (j + 1) 0) ((d :: szs).getD j 0) := by
    intro j hj
    have := (layers_getD hlay j hj).1
    simpa using this
  have hout : HasShape (ffT s (net.biases.zip net.weights) x) (szs.getLastD 0) 1 := by
    have := ffT_shape s hlay hposs hd hx
    rwa [List.getLastD_cons, getLastD_congr d 0 szs hne] at this
  have hfp2_ne : (forwardPairsT s (net.biases.zip net.weights) x).2 ≠ [] := by
    apply List.length_pos.mp
    rw [hfp.2.1]
    omega
  have hzslast_eq : (forwardPairsT s (net.biases.zip net.weights) x).2.getLastD [] =
      (forwardPairsT s (net.biases.zip net.weights) x).2.getD
        ((forwardPairsT s (net.biases.zip net.weights) x).2.length - 1) [] :=
    getLastD_eq_getD [] _ hfp2_ne
  have hszs_last_eq : szs.getLastD 0 = szs.getD (szs.length - 1) 0 := getLastD_eq_getD 0 szs hne
  have hzlast_shape : HasShape
      ((forwardPairsT s (net.biases.zip net.weights) x).2.getLastD []) (szs.getLastD 0) 1 := by
    rw [hzslast_eq, hfp.2.1, hszs_last_eq]
    have := hzs_shape (szs.length - 1) (by omega)
    simpa using this
  have hsub_shape : HasShape (subT (ffT s (net.biases.zip net.weights) x) y)
      (szs.getLastD 0) 1 := subT_shape hout hy
  have htop_shape : HasShape
      (hadT (subT (ffT s (net.biases.zip net.weights) x) y)
        (sigmoidPrimeArr s ((forwardPairsT s (net.biases.zip net.weights) x).2.getLastD [])))
      (szs.getLastD 0) 1 :=
    hadT_shape hsub_shape (sigmoidPrimeArr_shape s hzlast_shape)
  have hpairs2_len : ((net.weights.drop 1).zip
      ((forwardPairsT s (net.biases.zip net.weights) x).2.dropLast)).length =
      szs.length - 1 := by
    simp only [List.length_zip, List.length_drop, List.length_dropLast, hlens.2, hfp.2.1]
    omega
  have hpairs2_getD : ∀ j < szs.length - 1,
      ((net.weights.drop 1).zip
        ((forwardPairsT s (net.biases.zip net.weights) x).2.dropLast)).getD j ([], []) =
      (net.weights.getD (j + 1) [],
       (forwardPairsT s (net.biases.zip net.weights) x).2.getD j []) := by
    intro j hj
    rw [getD_zip _ _ j [] []
      (by simp only [List.length_drop, hlens.2]; omega)
      (by simp only [List.length_dropLast, hfp.2.1]; omega)]
    rw [getD_drop_one _ j [] (by rw [hlens.2]; omega),
      getD_dropLast _ j [] (by rw [hfp.2.1]; omega)]
  have hds_len : (backDeltas s
      ((net.weights.drop 1).zip
        ((forwardPairsT s (net.biases.zip net.weights) x).2.dropLast))
      (hadT (subT (ffT s (net.biases.zip net.weights) x) y)
        (sigmoidPrimeArr s
          ((forwardPairsT s (net.biases.zip net.weights) x).2.getLastD [])))).length =
      szs.length := by
    rw [backDeltas_length, hpairs2_len]
    omega
  have hds_shape0 : ∀ j < szs.length,
      HasShape ((backDeltas s
        ((net.weights.drop 1).zip
          ((forwardPairsT s (net.biases.zip net.weights) x).2.dropLast))
        (hadT (subT (ffT s (net.biases.zip net.weights) x) y)
          (sigmoidPrimeArr s
            ((forwardPairsT s (net.biases.zip net.weights) x).2.getLastD [])))).getD j [])
        (szs.getD j 0) 1 := by
    intro j hj
    refine backDeltas_shape s _ szs _ (by rw [hpairs2_len]; omega)
      (fun i hi => by
        rw [List.getD_eq_getElem _ _ hi]
        exact hposs _ (List.getElem_mem hi))
      (fun i hi => ?_) htop_shape j hj
    rw [hpairs2_getD i (by omega)]
    constructor
    · have := (layers_getD hlay (i + 1) (by omega)).1
      simpa using this
    · exact (hfp.2.2 i (by omega)).2
  have hds_shape1 : ∀ j < szs.length,
      HasShape ((backDeltas s
        ((net.weights.drop 1).zip
          ((forwardPairsT s (net.biases.zip net.weights) x).2.dropLast))
        (hadT (subT (ffT s (net.biases.zip net.weights) x) y)
          (sigmoidPrimeArr s
            ((forwardPairsT s (net.biases.zip net.weights) x).2.getLastD [])))).getD j [])
        ((d :: szs).getD (j + 1) 0) 1 := by
    intro j hj
    simpa using hds_shape0 j hj
  have hds_rec : ∀ j, j + 1 < szs.length →
      (backDeltas s
        ((net.weights.drop 1).zip
          ((forwardPairsT s (net.biases.zip net.weights) x).2.dropLast))
        (hadT (subT (ffT s (net.biases.zip net.weights) x) y)
          (sigmoidPrimeArr s
            ((forwardPairsT s (net.biases.zip net.weights) x).2.getLastD [])))).getD j [] =
      hadT (matMulT (transposeT (net.weights.getD (j + 1) []))
        ((backDeltas s
          ((net.weights.drop 1).zip
            ((forwardPairsT s (net.biases.zip net.weights) x).2.dropLast))
          (hadT (subT (ffT s (net.biases.zip net.weights) x) y)
            (sigmoidPrimeArr s
              ((forwardPairsT s (net.biases.zip net.weights) x).2.getLastD [])))).getD
          (j + 1) []))
        (sigmoidPrimeArr s
          ((forwardPairsT s (net.biases.zip net.weights) x).2.getD j [])) := by
    intro j hj
    have hbd := backDeltas_getD s
      ((net.weights.drop 1).zip
        ((forwardPairsT s (net.biases.zip net.weights) x).2.dropLast))
      (hadT (subT (ffT s (net.biases.zip net.weights) x) y)
        (sigmoidPrimeArr s
          ((forwardPairsT s (net.biases.zip net.weights) x).2.getLastD [])))
      j (by rw [hpairs2_len]; omega)
    rw [hpairs2_getD j (by omega)] at hbd
    exact hbd
  have hds_last : (backDeltas s
      ((net.weights.drop 1).zip
        ((forwardPairsT s (net.biases.zip net.weights) x).2.dropLast))
      (hadT (subT (ffT s (net.biases.zip net.weights) x) y)
        (sigmoidPrimeArr s
          ((forwardPairsT s (net.biases.zip net.weights) x).2.getLastD [])))).getD
        (szs.length - 1) [] =
      hadT (subT (ffT s (net.biases.zip net.weights) x) y)
        (sigmoidPrimeArr s
          ((forwardPairsT s (net.biases.zip net.weights) x).2.getLastD [])) := by
    have hbd := backDeltas_getD_last s
      ((net.weights.drop 1).zip
        ((forwardPairsT s (net.biases.zip net.weights) x).2.dropLast))
      (hadT (subT (ffT s (net.biases.zip net.weights) x) y)
        (sigmoidPrimeArr s
          ((forwardPairsT s (net.biases.zip net.weights) x).2.getLastD [])))
    rwa [hpairs2_len] at hbd
  have hwg_len : (List.zipWith (fun dl a => matMulT dl (transposeT a))
      (backDeltas s
        ((net.weights.drop 1).zip
          ((forwardPairsT s (net.biases.zip net.weights) x).2.dropLast))
        (hadT (subT (ffT s (net.biases.zip net.weights) x) y)
          (sigmoidPrimeArr s
            ((forwardPairsT s (net.biases.zip net.weights) x).2.getLastD []))))
      ((x :: (forwardPairsT s (net.biases.zip net.weights) x).1).dropLast)).length =
      szs.length := by
    simp only [List.length_zipWith, List.length_dropLast, List.length_cons, hds_len, hfp.1]
    omega
  have hwg_getD : ∀ j < szs.length,
      (List.zipWith (fun dl a => matMulT dl (transposeT a))
        (backDeltas s
          ((net.weights.drop 1).zip
            ((forwardPairsT s (net.biases.zip net.weights) x).2.dropLast))
          (hadT (subT (ffT s (net.biases.zip net.weights) x) y)
            (sigmoidPrimeArr s
              ((forwardPairsT s (net.biases.zip net.weights) x).2.getLastD []))))
        ((x :: (forwardPairsT s (net.biases.zip net.weights) x).1).dropLast)).getD j [] =
      matMulT
        ((backDeltas s
          ((net.weights.drop 1).zip
            ((forwardPairsT s (net.biases.zip net.weights) x).2.dropLast))
          (hadT (subT (ffT s (net.biases.zip net.weights) x) y)
            (sigmoidPrimeArr s
              ((forwardPairsT s (net.biases.zip net.weights) x).2.getLastD [])))).getD j [])
        (transposeT ((x :: (forwardPairsT s (net.biases.zip net.weights) x).1).getD j [])) := by
    intro j hj
    rw [getD_zipWith _ _ _ j [] [] []
      (by rw [hds_len]; omega)
      (by simp only [List.length_dropLast, List.length_cons, hfp.1]; omega)]
    rw [getD_dropLast _ j [] (by simp only [List.length_cons, hfp.1]; omega)]
  have hwg_shape : ∀ j < szs.length,
      HasShape ((List.zipWith (fun dl a => matMulT dl (transposeT a))
        (backDeltas s
          ((net.weights.drop 1).zip
            ((forwardPairsT s (net.biases.zip net.weights) x).2.dropLast))
          (hadT (subT (ffT s (net.biases.zip net.weights) x) y)
            (sigmoidPrimeArr s
              ((forwardPairsT s (net.biases.zip net.weights) x).2.getLastD []))))
        ((x :: (forwardPairsT s (net.biases.zip net.weights) x).1).dropLast)).getD j [])
        (szs.getD j 0) ((d :: szs).getD j 0) := by
    intro j hj
    rw [hwg_getD j hj]
    exact matMulT_shape (hds_shape0 j hj)
      (transposeT_shape (hacts_shape j (by omega)) (hposd j (by omega))) one_pos
  have hnbT : nablaBT s net x y =
      backDeltas s
        ((net.weights.drop 1).zip
          ((forwardPairsT s (net.biases.zip net.weights) x).2.dropLast))
        (hadT (subT (ffT s (net.biases.zip net.weights) x) y)
          (sigmoidPrimeArr s
            ((forwardPairsT s (net.biases.zip net.weights) x).2.getLastD []))) := by
    simp only [nablaBT, deltasT, zsT, activationsT]
    rw [activations_getLastD]
  have hnwT : nablaWT s net x y =
      List.zipWith (fun dl a => matMulT dl (transposeT a))
        (backDeltas s
          ((net.weights.drop 1).zip
            ((forwardPairsT s (net.biases.zip net.weights) x).2.dropLast))
          (hadT (subT (ffT s (net.biases.zip net.weights) x) y)
            (sigmoidPrimeArr s
              ((forwardPairsT s (net.biases.zip net.weights) x).2.getLastD []))))
        ((x :: (forwardPairsT s (net.biases.zip net.weights) x).1).dropLast) := by
    simp only [nablaWT, deltasT, zsT, activationsT]
    rw [activations_getLastD]
  refine ⟨?_, ?_, ?_, ?_, ?_, ?_, ?_⟩
  · -- the main evaluation of `backprop`
    have hfwd := fwd_foldlM s hlay hposs hd hx [x] []
    simp only [List.singleton_append, List.nil_append] at hfwd
    unfold backprop
    rw [hfwd, ok_bind]
    dsimp only
    simp only [cost_derivative]
    rw [activations_getLastD]
    rw [bop_sub_ok hout hy, ok_bind]
    rw [bop_mul_ok hsub_shape (sigmoidPrimeArr_shape s hzlast_shape), ok_bind]
    have hzb_ne : net.biases.map zeroLike ≠ [] := by
      apply List.length_pos.mp
      simp only [List.length_map, hlens.1]
      omega
    have hzw_ne : net.weights.map zeroLike ≠ [] := by
      apply List.length_pos.mp
      simp only [List.length_map, hlens.2]
      omega
    have hlb : (net.biases.map zeroLike).length = szs.length := by
      simp [hlens.1]
    have hlw : (net.weights.map zeroLike).length = szs.length := by
      simp [hlens.2]
    have hsetb : (net.biases.map zeroLike).set ((net.biases.map zeroLike).length - 1)
        (hadT (subT (ffT s (net.biases.zip net.weights) x) y)
          (sigmoidPrimeArr s
            ((forwardPairsT s (net.biases.zip net.weights) x).2.getLastD []))) =
        (net.biases.map zeroLike).take (szs.length - 1) ++
          (backDeltas s
            ((net.weights.drop 1).zip
              ((forwardPairsT s (net.biases.zip net.weights) x).2.dropLast))
            (hadT (subT (ffT s (net.biases.zip net.weights) x) y)
              (sigmoidPrimeArr s
                ((forwardPairsT s (net.biases.zip net.weights) x).2.getLastD [])))).drop
            (szs.length - 1) := by
      rw [set_last_eq_take_append _ _ hzb_ne, hlb]
      congr 1
      rw [drop_pred _ (szs.length - 1) [] (by rw [hds_len]; omega)]
      rw [hds_last]
    rw [hsetb]
    have hposLast : 0 < szs.getLastD 0 := by
      rw [hszs_last_eq, List.getD_eq_getElem _ _ (by omega)]
      exact hposs _ (List.getElem_mem _)
    have hactsL1 := hacts_shape (szs.length - 1) (by omega)
    have hposL1 : 0 < (d :: szs).getD (szs.length - 1) 0 := hposd _ (by omega)
    have hdL1len : (x :: (forwardPairsT s (net.biases.zip net.weights) x).1).length - 2 =
        szs.length - 1 := by
      simp only [List.length_cons, hfp.1]
      omega
    rw [hdL1len]
    have hdot_nwL : numCols
        (hadT (subT (ffT s (net.biases.zip net.weights) x) y)
          (sigmoidPrimeArr s
            ((forwardPairsT s (net.biases.zip net.weights) x).2.getLastD []))) =
        (transposeT
          ((x :: (forwardPairsT s (net.biases.zip net.weights) x).1).getD
            (szs.length - 1) [])).length := by
      rw [numCols_of_shape htop_shape hposLast,
        shape_rows (transposeT_shape hactsL1 hposL1)]
    rw [dotM_ok hdot_nwL, ok_bind]
    have hsetw : (net.weights.map zeroLike).set ((net.weights.map zeroLike).length - 1)
        (matMulT
          (hadT (subT (ffT s (net.biases.zip net.weights) x) y)
            (sigmoidPrimeArr s
              ((forwardPairsT s (net.biases.zip net.weights) x).2.getLastD [])))
          (transposeT
            ((x :: (forwardPairsT s (net.biases.zip net.weights) x).1).getD
              (szs.length - 1) []))) =
        (net.weights.map zeroLike).take (szs.length - 1) ++
          (List.zipWith (fun dl a => matMulT dl (transposeT a))
            (backDeltas s
              ((net.weights.drop 1).zip
                ((forwardPairsT s (net.biases.zip net.weights) x).2.dropLast))
              (hadT (subT (ffT s (net.biases.zip net.weights) x) y)
                (sigmoidPrimeArr s
                  ((forwardPairsT s (net.biases.zip net.weights) x).2.getLastD []))))
            ((x :: (forwardPairsT s (net.biases.zip net.weights) x).1).dropLast)).drop
            (szs.length - 1) := by
      rw [set_last_eq_take_append _ _ hzw_ne, hlw]
      congr 1
      rw [drop_pred _ (szs.length - 1) [] (by rw [hwg_len]; omega)]
      rw [hwg_getD (szs.length - 1) (by omega), hds_last]
    rw [hsetw]
    have hnum : net.num_layers - 2 = szs.length - 1 := by
      simp only [Network.num_layers, hs, List.length_cons]
      omega
    rw [hnum]
    have hloop := @back_foldlM α _ s
      ((forwardPairsT s (net.biases.zip net.weights) x).2)
      (x :: (forwardPairsT s (net.biases.zip net.weights) x).1)
      net.weights
      (backDeltas s
        ((net.weights.drop 1).zip
          ((forwardPairsT s (net.biases.zip net.weights) x).2.dropLast))
        (hadT (subT (ffT s (net.biases.zip net.weights) x) y)
          (sigmoidPrimeArr s
            ((forwardPairsT s (net.biases.zip net.weights) x).2.getLastD []))))
      (List.zipWith (fun dl a => matMulT dl (transposeT a))
        (backDeltas s
          ((net.weights.drop 1).zip
            ((forwardPairsT s (net.biases.zip net.weights) x).2.dropLast))
          (hadT (subT (ffT s (net.biases.zip net.weights) x) y)
            (sigmoidPrimeArr s
              ((forwardPairsT s (net.biases.zip net.weights) x).2.getLastD []))))
        ((x :: (forwardPairsT s (net.biases.zip net.weights) x).1).dropLast))
      (net.biases.map zeroLike)
      (net.weights.map zeroLike)
      (fun i => (d :: szs).getD i 0)
      szs.length
      hfp.2.1 (by simp [hfp.1]) hlens.2 hds_len hwg_len hlb hlw
      hposd hw_shape hzs_shape hacts_shape hds_shape1 hds_rec hwg_getD
      (szs.length - 1) 0 (by omega)
    simp only [Nat.sub_zero, Nat.add_zero] at hloop
    rw [hds_last] at hloop
    rw [hloop, ok_bind]
    dsimp only
    rw [← hnwT, ← hnbT]
    rfl
  · rw [hnbT, hds_len, hs]
    simp
  · rw [hnwT, hwg_len, hs]
    simp
  · intro j hj
    rw [hs] at hj
    simp only [List.length_cons, Nat.add_sub_cancel] at hj
    constructor
    · rw [hnbT, hs]
      simpa using hds_shape0 j hj
    · rw [hnwT, hs]
      simpa using hwg_shape j hj
  · have hdeq : deltasT s net x y =
        backDeltas s
          ((net.weights.drop 1).zip
            ((forwardPairsT s (net.biases.zip net.weights) x).2.dropLast))
          (hadT (subT (ffT s (net.biases.zip net.weights) x) y)
            (sigmoidPrimeArr s
              ((forwardPairsT s (net.biases.zip net.weights) x).2.getLastD []))) := hnbT
    have hidx : net.sizes.length - 2 = szs.length - 1 := by
      rw [hs]
      simp
    rw [hdeq, hidx, hds_last]
    simp only [activationsT, zsT]
    rw [activations_getLastD]
  · intro j hj
    have hj' : j + 1 < szs.length := by
      rw [hs] at hj
      simpa using hj
    have hdeq : deltasT s net x y =
        backDeltas s
          ((net.weights.drop 1).zip
            ((forwardPairsT s (net.biases.zip net.weights) x).2.dropLast))
          (hadT (subT (ffT s (net.biases.zip net.weights) x) y)
            (sigmoidPrimeArr s
              ((forwardPairsT s (net.biases.zip net.weights) x).2.getLastD []))) := hnbT
    rw [hdeq]
    simp only [zsT]
    exact hds_rec j hj'
  · intro j hj
    have hj' : j < szs.length := by
      rw [hs] at hj
      simpa using hj
    have hdeq : deltasT s net x y =
        backDeltas s
          ((net.weights.drop 1).zip
            ((forwardPairsT s (net.biases.zip net.weights) x).2.dropLast))
          (hadT (subT (ffT s (net.biases.zip net.weights) x) y)
            (sigmoidPrimeArr s
              ((forwardPairsT s (net.biases.zip net.weights) x).2.getLastD []))) := hnbT
    rw [hnwT, hwg_getD j hj', hdeq]
    simp only [activationsT]

/-! Lemmas for the gradient-accumulation and parameter-update steps of `SGD`. -/

theorem getD_map_zeroLike (l : List (Mat α)) (j : ℕ) (hj : j < l.length) :
    (l.map zeroLike).getD j [] = zeroLike (l.getD j []) := by
  rw [List.getD_eq_getElem _ _ (by simpa using hj), List.getD_eq_getElem _ _ hj,
    List.getElem_map]

theorem zeroLike_grads {net : Network α} (h : WF net) :
    GradsLike net (net.biases.map zeroLike) (net.weights.map zeroLike) := by
  obtain ⟨d, szs, hs, hne, hd, hposs, hlay, hhead, hlast⟩ := WF_parts h
  have hlens := layers_len hlay
  have hL : net.sizes.length - 1 = szs.length := by rw [hs]; simp
  refine ⟨by simp [hlens.1, hL], by simp [hlens.2, hL], fun j hj => ?_⟩
  rw [hL] at hj
  have hg := layers_getD hlay j hj
  constructor
  · rw [getD_map_zeroLike _ _ (by rw [hlens.1]; exact hj), hs]
    simpa using zeroLike_shape hg.2
  · rw [getD_map_zeroLike _ _ (by rw [hlens.2]; exact hj), hs]
    simpa using zeroLike_shape hg.1

theorem zipAddE_ok {xs ys : List (Mat α)} (hlen : xs.length = ys.length)
    (hsh : ∀ j < xs.length, ∃ r c, HasShape (xs.getD j []) r c ∧ HasShape (ys.getD j []) r c) :
    zipAddE xs ys = .ok (addLT xs ys) := by
  unfold zipAddE addLT
  rw [zipWith_eq_map_zip]
  apply mapE_eq_ok
  intro p hp
  obtain ⟨j, hj, hpj⟩ := List.mem_iff_getElem.mp hp
  have hjx : j < xs.length := by
    simp only [List.length_zip] at hj
    omega
  have hjy : j < ys.length := by
    simp only [List.length_zip] at hj
    omega
  obtain ⟨r, c, h1, h2⟩ := hsh j hjx
  rw [List.getD_eq_getElem _ _ hjx] at h1
  rw [List.getD_eq_getElem _ _ hjy] at h2
  rw [← hpj]
  rw [List.getElem_zip]
  exact bop_add_ok h1 h2

theorem addLT_grads {net : Network α} {nb nw gb gw : List (Mat α)}
    (h1 : GradsLike net nb nw) (h2 : GradsLike net gb gw) :
    GradsLike net (addLT nb gb) (addLT nw gw) := by
  obtain ⟨hb1, hw1, hs1⟩ := h1
  obtain ⟨hb2, hw2, hs2⟩ := h2
  refine ⟨by simp [addLT, hb1, hb2], by simp [addLT, hw1, hw2], fun j hj => ?_⟩
  constructor
  · rw [addLT, getD_zipWith _ _ _ j [] [] [] (by omega) (by omega)]
    exact addT_shape (hs1 j hj).1 (hs2 j hj).1
  · rw [addLT, getD_zipWith _ _ _ j [] [] [] (by omega) (by omega)]
    exact addT_shape (hs1 j hj).2 (hs2 j hj).2

theorem grads_of_backprop (s : α → α) {net : Network α} (h : WF net) {p : Mat α × Mat α}
    (hp : ExOK net p) :
    GradsLike net (nablaBT s net p.1 p.2) (nablaWT s net p.1 p.2) := by
  obtain ⟨-, h2, h3, h4, -, -, -⟩ := backprop_master s h hp.1 hp.2
  exact ⟨h2, h3, h4⟩

theorem accum_foldlM (s : α → α) {net : Network α} (h : WF net) :
    ∀ (data : List (Mat α × Mat α)), DataOK net data →
      ∀ (nb nw : List (Mat α)), GradsLike net nb nw →
      data.foldlM (accumStep s net) (nb, nw) =
        .ok (data.foldl (fun acc p => addLT acc (nablaBT s net p.1 p.2)) nb,
             data.foldl (fun acc p => addLT acc (nablaWT s net p.1 p.2)) nw) ∧
      GradsLike net (data.foldl (fun acc p => addLT acc (nablaBT s net p.1 p.2)) nb)
        (data.foldl (fun acc p => addLT acc (nablaWT s net p.1 p.2)) nw)
  | [], _, nb, nw, hg => ⟨rfl, hg⟩
  | p :: rest, hD, nb, nw, hg => by
      have hp : ExOK net p := hD p (by simp)
      have hbp := (backprop_master s h hp.1 hp.2).1
      have hgp := grads_of_backprop s h hp
      have hz1 : zipAddE nb (nablaBT s net p.1 p.2) =
          .ok (addLT nb (nablaBT s net p.1 p.2)) := by
        refine zipAddE_ok (by rw [hg.1, hgp.1]) (fun j hj => ?_)
        have hj' : j < net.sizes.length - 1 := by rw [hg.1] at hj; exact hj
        exact ⟨(net.sizes.drop 1).getD j 0, 1, (hg.2.2 j hj').1, (hgp.2.2 j hj').1⟩
      have hz2 : zipAddE nw (nablaWT s net p.1 p.2) =
          .ok (addLT nw (nablaWT s net p.1 p.2)) := by
        refine zipAddE_ok (by rw [hg.2.1, hgp.2.1]) (fun j hj => ?_)
        have hj' : j < net.sizes.length - 1 := by rw [hg.2.1] at hj; exact hj
        exact ⟨(net.sizes.drop 1).getD j 0, net.sizes.getD j 0,
          (hg.2.2 j hj').2, (hgp.2.2 j hj').2⟩
      have hstep : accumStep s net (nb, nw) p =
          .ok (addLT nb (nablaBT s net p.1 p.2), addLT nw (nablaWT s net p.1 p.2)) := by
        unfold accumStep
        rw [hbp, ok_bind]
        dsimp only
        rw [hz1, ok_bind, hz2, ok_bind]
        rfl
      have hg' := addLT_grads hg hgp
      have ih := accum_foldlM s h rest (fun q hq => hD q (by simp [hq]))
        (addLT nb (nablaBT s net p.1 p.2)) (addLT nw (nablaWT s net p.1 p.2)) hg'
      constructor
      · rw [List.foldlM_cons, hstep, ok_bind]
        simpa using ih.1
      · simpa using ih.2

theorem updParams_ok {lr : α} {n : ℕ} (hn : n ≠ 0) {ps ns : List (Mat α)}
    (hlen : ps.length = ns.length)
    (hsh : ∀ j < ps.length, ∃ r c, HasShape (ps.getD j []) r c ∧ HasShape (ns.getD j []) r c) :
    updParams lr n ps ns =
      .ok (List.zipWith (fun p g => subT p (smulT (lr / (n : α)) g)) ps ns) := by
  unfold updParams
  rw [zipWith_eq_map_zip]
  apply mapE_eq_ok
  intro p hp
  obtain ⟨j, hj, hpj⟩ := List.mem_iff_getElem.mp hp
  have hjx : j < ps.length := by
    simp only [List.length_zip] at hj
    omega
  have hjy : j < ns.length := by
    simp only [List.length_zip] at hj
    omega
  obtain ⟨r, c, h1, h2⟩ := hsh j hjx
  rw [List.getD_eq_getElem _ _ hjx] at h1
  rw [List.getD_eq_getElem _ _ hjy] at h2
  rw [← hpj, List.getElem_zip]
  dsimp only
  rw [scalarDiv_ok _ hn, ok_bind]
  exact bop_sub_ok h1 (smulT_shape _ h2)

theorem updated_layers {net : Network α} (h : WF net) {c : α} {gb gw : List (Mat α)}
    (hg : GradsLike net gb gw) :
    WF { sizes := net.sizes
       , biases := List.zipWith (fun p g => subT p (smulT c g)) net.biases gb
       , weights := List.zipWith (fun p g => subT p (smulT c g)) net.weights gw } := by
  obtain ⟨d, szs, hs, hne, hd, hposs, hlay, hhead, hlast⟩ := WF_parts h
  have hlens := layers_len hlay
  have hL : net.sizes.length - 1 = szs.length := by rw [hs]; simp
  have hgb' : ∀ j < szs.length, HasShape (gb.getD j []) (szs.getD j 0) 1 := by
    intro j hj
    have hx := (hg.2.2 j (by omega)).1
    rwa [hs, List.drop_succ_cons, List.drop_zero] at hx
  have hgw' : ∀ j < szs.length,
      HasShape (gw.getD j []) (szs.getD j 0) ((d :: szs).getD j 0) := by
    intro j hj
    have hx := (hg.2.2 j (by omega)).2
    rwa [hs, List.drop_succ_cons, List.drop_zero] at hx
  refine ⟨h.1, h.2.1, ?_⟩
  dsimp only
  rw [hs]
  simp only [List.headD_cons, List.drop_succ_cons, List.drop_zero]
  apply layers_of_indexed
  · simp only [List.length_zipWith, hlens.1]
    rw [hg.1, hL]
    exact Nat.min_self _
  · simp only [List.length_zipWith, hlens.2]
    rw [hg.2.1, hL]
    exact Nat.min_self _
  · intro i hi
    constructor
    · rw [getD_zipWith _ _ _ i [] [] [] (by rw [hlens.2]; omega) (by rw [hg.2.1, hL]; omega)]
      exact subT_shape (layers_getD hlay i hi).1 (smulT_shape c (hgw' i hi))
    · rw [getD_zipWith _ _ _ i [] [] [] (by rw [hlens.1]; omega) (by rw [hg.1, hL]; omega)]
      exact subT_shape (layers_getD hlay i hi).2 (smulT_shape c (hgb' i hi))

theorem dataOK_sizes {net net' : Network α} (hsz : net'.sizes = net.sizes)
    {data : List (Mat α × Mat α)} (hD : DataOK net data) : DataOK net' data := by
  intro p hp
  have hx := hD p hp
  unfold ExOK at hx ⊢
  rw [hsz]
  exact hx

/-- Workhorse lemma for one epoch: with a well-formed network, well-shaped data and a
nonempty training set, the epoch body succeeds; the updated parameters are exactly
`p - (lr / N) * (sum of the per-example gradients computed from the entering network)`,
well-formedness is preserved, and the new accuracy is `tp / N` for some count `tp`. -/
theorem epochBody_master (s : α → α) (lr : α) {net : Network α}
    {data : List (Mat α × Mat α)} (h : WF net) (hD : DataOK net data) (hne : data ≠ []) :
    ∃ tp : ℕ,
      epochBody s lr data net = .ok
        ({ sizes := net.sizes
          , biases := List.zipWith (fun p g => subT p (smulT (lr / (data.length : α)) g))
              net.biases (sumGradsB s net data)
          , weights := List.zipWith (fun p g => subT p (smulT (lr / (data.length : α)) g))
              net.weights (sumGradsW s net data) },
         (tp : α) / (data.length : α)) ∧
      WF { sizes := net.sizes
          , biases := List.zipWith (fun p g => subT p (smulT (lr / (data.length : α)) g))
              net.biases (sumGradsB s net data)
          , weights := List.zipWith (fun p g => subT p (smulT (lr / (data.length : α)) g))
              net.weights (sumGradsW s net data) } := by
  have hN : data.length ≠ 0 := fun h0 => hne (List.length_eq_zero.mp h0)
  have hzg := zeroLike_grads h
  have hacc := accum_foldlM s h data hD _ _ hzg
  have hsumg : GradsLike net (sumGradsB s net data) (sumGradsW s net data) := hacc.2
  have hlens := layers_len h.2.2
  have hlb : net.biases.length = net.sizes.length - 1 := by
    rw [hlens.1]
    simp
  have hlw : net.weights.length = net.sizes.length - 1 := by
    rw [hlens.2]
    simp
  have hparamB : ∀ j < net.biases.length,
      ∃ r c, HasShape (net.biases.getD j []) r c ∧
        HasShape ((sumGradsB s net data).getD j []) r c := by
    intro j hj
    have hj' : j < (net.sizes.drop 1).length := by rw [← hlens.1]; exact hj
    refine ⟨(net.sizes.drop 1).getD j 0, 1, (layers_getD h.2.2 j hj').2, ?_⟩
    exact (hsumg.2.2 j (by simpa using hj')).1
  have hparamW : ∀ j < net.weights.length,
      ∃ r c, HasShape (net.weights.getD j []) r c ∧
        HasShape ((sumGradsW s net data).getD j []) r c := by
    intro j hj
    have hj' : j < (net.sizes.drop 1).length := by rw [← hlens.2]; exact hj
    refine ⟨(net.sizes.drop 1).getD j 0, net.sizes.getD j 0, ?_, ?_⟩
    · have := (layers_getD h.2.2 j hj').1
      have hcons : ((net.sizes.headD 0 :: net.sizes.drop 1).getD j 0) = net.sizes.getD j 0 := by
        cases hsz : net.sizes with
        | nil => rw [hsz] at hj'; simp at hj'
        | cons a t => simp
      rwa [hcons] at this
    · exact (hsumg.2.2 j (by simpa using hj')).2
  have hupW := @updParams_ok α _ lr data.length hN
    net.weights (sumGradsW s net data)
    (by rw [hlw, hsumg.2.1]) hparamW
  have hupB := @updParams_ok α _ lr data.length hN
    net.biases (sumGradsB s net data)
    (by rw [hlb, hsumg.1]) hparamB
  have hWF' := updated_layers (c := lr / (data.length : α)) h hsumg
  have hD' : DataOK
      { sizes := net.sizes
        , biases := List.zipWith (fun p g => subT p (smulT (lr / (data.length : α)) g))
            net.biases (sumGradsB s net data)
        , weights := List.zipWith (fun p g => subT p (smulT (lr / (data.length : α)) g))
            net.weights (sumGradsW s net data) } data := dataOK_sizes rfl hD
  have hev := evaluate_true_eq s hWF' hD'
  refine ⟨(data.map (fun p =>
      if argmaxA (ffT s
        ((List.zipWith (fun p g => subT p (smulT (lr / (data.length : α)) g))
          net.biases (sumGradsB s net data)).zip
         (List.zipWith (fun p g => subT p (smulT (lr / (data.length : α)) g))
          net.weights (sumGradsW s net data))) p.1) = argmaxA p.2
      then 1 else 0)).sum, ?_, hWF'⟩
  unfold epochBody
  dsimp only
  rw [hacc.1, ok_bind]
  dsimp only
  rw [show List.foldl (fun acc p => addLT acc (nablaBT s net p.1 p.2))
      (List.map zeroLike net.biases) data = sumGradsB s net data from rfl]
  rw [show List.foldl (fun acc p => addLT acc (nablaWT s net p.1 p.2))
      (List.map zeroLike net.weights) data = sumGradsW s net data from rfl]
  rw [hupW, ok_bind, hupB, ok_bind]
  rw [hev, ok_bind]
  dsimp only
  rw [scalarDiv_ok _ hN, ok_bind]
  rfl

/-- The `while` loop, unfolded once when its condition holds: an epoch always runs. -/
theorem SGDloop_unfold (s : α → α) (lr : α) (data : List (Mat α × Mat α)) (fuel : ℕ)
    (net : Network α) (acc : α) (h : acc < 8 / 10) :
    SGDloop s lr data (fuel + 1) net acc =
      (epochBody s lr data net >>= fun r =>
        if |r.2 - acc| < 1 / 100000 then pure (some r)
        else SGDloop s lr data fuel r.1 r.2) := by
  rw [SGDloop, if_pos h]

/-- The `while` loop, when its condition fails: exit with the current state. -/
theorem SGDloop_exit (s : α → α) (lr : α) (data : List (Mat α × Mat α)) (fuel : ℕ)
    (net : Network α) (acc : α) (h : ¬ acc < 8 / 10) :
    SGDloop s lr data (fuel + 1) net acc = .ok (some (net, acc)) := by
  rw [SGDloop, if_neg h]

/-- If the loop returns, it exited either with accuracy at least 0.8 or through the
plateau `break`, whose accuracy change against the previous epoch was below `1e-5`. -/
theorem SGDloop_exit_reason (s : α → α) (lr : α) (data : List (Mat α × Mat α)) :
    ∀ (fuel : ℕ) (net : Network α) (acc : α) (net' : Network α) (acc' : α),
      SGDloop s lr data fuel net acc = .ok (some (net', acc')) →
      (8 / 10 : α) ≤ acc' ∨
      ∃ (nprev : Network α) (aprev : α),
        epochBody s lr data nprev = .ok (net', acc') ∧ |acc' - aprev| < 1 / 100000
  | 0, net, acc, net', acc', hrun => by cases hrun
  | fuel + 1, net, acc, net', acc', hrun => by
      by_cases hacc : acc < 8 / 10
      · rw [SGDloop_unfold s lr data fuel net acc hacc] at hrun
        cases hep : epochBody s lr data net with
        | error e => rw [hep, error_bind] at hrun; cases hrun
        | ok r =>
            rw [hep, ok_bind] at hrun
            by_cases hbr : |r.2 - acc| < 1 / 100000
            · rw [if_pos hbr] at hrun
              have : some r = some (net', acc') := Except.ok.inj hrun
              have hr : r = (net', acc') := Option.some.inj this
              subst hr
              exact Or.inr ⟨net, acc, hep, hbr⟩
            · rw [if_neg hbr] at hrun
              exact SGDloop_exit_reason s lr data fuel r.1 r.2 net' acc' hrun
      · rw [SGDloop_exit s lr data fuel net acc hacc] at hrun
        have : some (net, acc) = some (net', acc') := Except.ok.inj hrun
        have hr : (net, acc) = (net', acc') := Option.some.inj this
        have hacc' : acc = acc' := congrArg Prod.snd hr
        subst hacc'
        exact Or.inl (le_of_not_lt hacc)

/-- The loop preserves well-formedness of the parameters (and never changes `sizes`). -/
theorem SGDloop_WF (s : α → α) (lr : α) (data : List (Mat α × Mat α))
    (hne : data ≠ []) :
    ∀ (fuel : ℕ) (net : Network α) (acc : α) (net' : Network α) (acc' : α),
      WF net → DataOK net data →
      SGDloop s lr data fuel net acc = .ok (some (net', acc')) →
      WF net' ∧ net'.sizes = net.sizes
  | 0, net, acc, net', acc', _, _, hrun => by cases hrun
  | fuel + 1, net, acc, net', acc', hWF, hD, hrun => by
      by_cases hacc : acc < 8 / 10
      · rw [SGDloop_unfold s lr data fuel net acc hacc] at hrun
        obtain ⟨tp, hep, hWF1⟩ := epochBody_master s lr hWF hD hne
        rw [hep, ok_bind] at hrun
        by_cases hbr : |((tp : α) / (data.length : α)) - acc| < 1 / 100000
        · rw [if_pos hbr] at hrun
          have : some _ = some (net', acc') := Except.ok.inj hrun
          have hr := Option.some.inj this
          have hn : net' =
              { sizes := net.sizes
                , biases := List.zipWith (fun p g => subT p (smulT (lr / (data.length : α)) g))
                    net.biases (sumGradsB s net data)
                , weights := List.zipWith (fun p g => subT p (smulT (lr / (data.length : α)) g))
                    net.weights (sumGradsW s net data) } := (congrArg Prod.fst hr).symm
          rw [hn]
          exact ⟨hWF1, rfl⟩
        · rw [if_neg hbr] at hrun
          have hrec := SGDloop_WF s lr data hne fuel _ _ net' acc' hWF1
            (dataOK_sizes rfl hD) hrun
          exact ⟨hrec.1, hrec.2⟩
      · rw [SGDloop_exit s lr data fuel net acc hacc] at hrun
        have : some (net, acc) = some (net', acc') := Except.ok.inj hrun
        have hr := Option.some.inj this
        have hn : net' = net := (congrArg Prod.fst hr).symm
        rw [hn]
        exact ⟨hWF, rfl⟩

/-! Lemmas about `Network.init`. -/

theorem mkRandn_shape (g : ℕ → ℕ → α) (r c : ℕ) : HasShape (mkRandn g r c) r c := by
  refine ⟨by simp [mkRandn], fun row hrow => ?_⟩
  simp only [mkRandn, List.mem_map] at hrow
  obtain ⟨i, _, rfl⟩ := hrow
  simp

theorem init_shapes (sizes : List ℕ) (gB gW : ℕ → ℕ → ℕ → α) :
    (Network.init (α := α) sizes gB gW).weights.length = sizes.length - 1 ∧
    (Network.init (α := α) sizes gB gW).biases.length = sizes.length - 1 ∧
    ∀ i < sizes.length - 1,
      HasShape ((Network.init (α := α) sizes gB gW).weights.getD i [])
        (sizes.getD (i + 1) 0) (sizes.getD i 0) ∧
      HasShape ((Network.init (α := α) sizes gB gW).biases.getD i [])
        (sizes.getD (i + 1) 0) 1 := by
  refine ⟨?_, ?_, ?_⟩
  · simp only [Network.init, List.length_mapIdx, List.length_zip, List.length_dropLast,
      List.length_drop]
    omega
  · simp only [Network.init, List.length_mapIdx, List.length_drop]
  · intro i hi
    have hi1 : i + 1 < sizes.length := by omega
    have hii : i < sizes.length := by omega
    have h1i : 1 + i < sizes.length := by omega
    have hbl : i < sizes.dropLast.length := by
      simp only [List.length_dropLast]
      omega
    have hb1 : i < (sizes.drop 1).length := by
      simp only [List.length_drop]
      omega
    constructor
    · have hlen : i < ((sizes.dropLast).zip (sizes.drop 1)).length := by
        simp only [List.length_zip, List.length_dropLast, List.length_drop]
        omega
      simp only [Network.init]
      rw [List.getD_eq_getElem _ _ (by simpa using hlen), List.getElem_mapIdx]
      rw [List.getElem_zip]
      have hdl : (sizes.dropLast)[i] = sizes[i] := List.getElem_dropLast _ _ _
      have hd1 : (sizes.drop 1)[i] = sizes[1 + i] := List.getElem_drop _
      simp only [hdl, hd1]
      have e1 : sizes[1 + i] = sizes.getD (i + 1) 0 := by
        rw [List.getD_eq_getElem _ _ hi1]
        congr 1
        omega
      have e2 : sizes[i] = sizes.getD i 0 := (List.getD_eq_getElem _ _ hii).symm
      rw [e1, e2]
      exact mkRandn_shape _ _ _
    · simp only [Network.init]
      rw [List.getD_eq_getElem _ _ (by simp only [List.length_mapIdx, List.length_drop]; omega),
        List.getElem_mapIdx]
      have hd1 : (sizes.drop 1)[i] = sizes[1 + i] := List.getElem_drop _
      simp only [hd1]
      have e1 : sizes[1 + i] = sizes.getD (i + 1) 0 := by
        rw [List.getD_eq_getElem _ _ hi1]
        congr 1
        omega
      rw [e1]
      exact mkRandn_shape _ _ _

theorem init_WF (sizes : List ℕ) (gB gW : ℕ → ℕ → ℕ → α) (hk : 2 ≤ sizes.length)
    (hpos : ∀ m ∈ sizes, 0 < m) : WF (Network.init (α := α) sizes gB gW) := by
  obtain ⟨hd, tl, rfl⟩ : ∃ hd tl, sizes = hd :: tl := by
    cases sizes with
    | nil => simp at hk
    | cons a t => exact ⟨a, t, rfl⟩
  have hsh := init_shapes (α := α) (hd :: tl) gB gW
  refine ⟨by simpa [Network.init] using hk, by simpa [Network.init] using hpos, ?_⟩
  show Layers ((hd :: tl).headD 0) _ _ ((hd :: tl).drop 1)
  simp only [List.headD_cons, List.drop_succ_cons, List.drop_zero]
  apply layers_of_indexed
  · rw [hsh.2.1]
    simp
  · rw [hsh.1]
    simp
  · intro i hi
    have hi' : i < (hd :: tl).length - 1 := by simpa using hi
    have hw := (hsh.2.2 i hi').1
    have hb := (hsh.2.2 i hi').2
    simp only [List.getD_cons_succ] at hw hb
    exact ⟨hw, hb⟩

/-! Last generic helpers for the claim theorems. -/

theorem WF_indexed {net : Network α} (h : WF net) :
    net.weights.length = net.sizes.length - 1 ∧ net.biases.length = net.sizes.length - 1 ∧
    ∀ i < net.sizes.length - 1,
      HasShape (net.weights.getD i []) (net.sizes.getD (i + 1) 0) (net.sizes.getD i 0) ∧
      HasShape (net.biases.getD i []) (net.sizes.getD (i + 1) 0) 1 := by
  obtain ⟨d, szs, hs, hne, hd, hposs, hlay, hhead, hlast⟩ := WF_parts h
  have hlens := layers_len hlay
  have hL : net.sizes.length - 1 = szs.length := by rw [hs]; simp
  refine ⟨by rw [hlens.2, hL], by rw [hlens.1, hL], fun i hi => ?_⟩
  have hi' : i < szs.length := by rw [← hL]; exact hi
  have hg := layers_getD hlay i hi'
  rw [hs]
  simp only [List.getD_cons_succ]
  exact ⟨hg.1, hg.2⟩

theorem flatten_length_shape {m : Mat α} :
    ∀ {r : ℕ} {c : ℕ}, HasShape m r c → m.flatten.length = r * c := by
  induction m with
  | nil =>
      intro r c h
      have : r = 0 := by simpa using h.1.symm
      simp [this]
  | cons row t ih =>
      intro r c h
      have hr : t.length + 1 = r := by simpa using h.1
      have hrow : row.length = c := h.2 row (by simp)
      have ht : HasShape t t.length c := ⟨rfl, fun q hq => h.2 q (by simp [hq])⟩
      have := ih ht
      simp only [List.flatten_cons, List.length_append, hrow, this]
      rw [← hr]
      ring

theorem flatten_ne_nil_of_shape {m : Mat α} {r : ℕ} (h : HasShape m r 1) (hr : 0 < r) :
    m.flatten ≠ [] := by
  apply List.length_pos.mp
  rw [flatten_length_shape h]
  omega

theorem netA_WF : WF netA :=
  ⟨by decide, by decide, Layers.cons (by decide) (by decide) (Layers.nil 2)⟩

theorem netB_WF : WF netB :=
  ⟨by decide, by decide, Layers.cons (by decide) (by decide) (Layers.nil 1)⟩

/-! The claim theorems. -/

/-- C1.  For every example `(x, y)` whose dimensions match the layer sizes, `backprop`
returns per-layer gradients satisfying the backpropagation equations: the output-layer
error is `delta_L = (activations[L] - y) ⊙ sigmoid_prime(preActivations[L])` with
`sigmoid_prime(z) = sigmoid(z) * (1 - sigmoid(z))`; each hidden layer's error is
`delta_l = (W_{l+1}ᵗ · delta_{l+1}) ⊙ sigmoid_prime(preActivations[l])`; the bias
gradient of every layer equals its delta and the weight gradient is the outer product
`delta_l · activations[l-1]ᵗ`; and every returned gradient has the same shape as the
corresponding weight matrix or bias vector. -/
theorem backprop_equations (s : α → α) {net : Network α} (h : WF net) {x y : Mat α}
    (hx : HasShape x (net.sizes.headD 0) 1) (hy : HasShape y (net.sizes.getLastD 0) 1) :
    ∃ nb nw, backprop s net x y = .ok (nb, nw) ∧
      (∀ z : α, sigmoid_prime s z = s z * (1 - s z)) ∧
      ((deltasT s net x y).getD (net.sizes.length - 2) [] =
        hadT (subT ((activationsT s net x).getLastD []) y)
          (sigmoidPrimeArr s ((zsT s net x).getLastD []))) ∧
      (∀ j, j + 1 < net.sizes.length - 1 →
        (deltasT s net x y).getD j [] =
          hadT (matMulT (transposeT (net.weights.getD (j + 1) []))
            ((deltasT s net x y).getD (j + 1) []))
            (sigmoidPrimeArr s ((zsT s net x).getD j []))) ∧
      nb.length = net.biases.length ∧ nw.length = net.weights.length ∧
      ∀ j < net.sizes.length - 1,
        nb.getD j [] = (deltasT s net x y).getD j [] ∧
        nw.getD j [] = matMulT ((deltasT s net x y).getD j [])
          (transposeT ((activationsT s net x).getD j [])) ∧
        (∃ r c, HasShape (nb.getD j []) r c ∧ HasShape (net.biases.getD j []) r c) ∧
        (∃ r c, HasShape (nw.getD j []) r c ∧ HasShape (net.weights.getD j []) r c) := by
  obtain ⟨heq, hlb, hlw, hsh, hlast, hrec, hwval⟩ := backprop_master s h hx hy
  have hidx := WF_indexed h
  refine ⟨nablaBT s net x y, nablaWT s net x y, heq, fun z => rfl, hlast, hrec,
    by rw [hlb, hidx.2.1], by rw [hlw, hidx.1], fun j hj => ?_⟩
  refine ⟨rfl, hwval j hj, ?_, ?_⟩
  · refine ⟨(net.sizes.drop 1).getD j 0, 1, (hsh j hj).1, ?_⟩
    have := (hidx.2.2 j hj).2
    have hdropj : (net.sizes.drop 1).getD j 0 = net.sizes.getD (j + 1) 0 := by
      cases hsz : net.sizes with
      | nil => rw [hsz] at hj; simp at hj
      | cons a t => simp
    rw [hdropj]
    exact this
  · refine ⟨(net.sizes.drop 1).getD j 0, net.sizes.getD j 0, (hsh j hj).2, ?_⟩
    have := (hidx.2.2 j hj).1
    have hdropj : (net.sizes.drop 1).getD j 0 = net.sizes.getD (j + 1) 0 := by
      cases hsz : net.sizes with
      | nil => rw [hsz] at hj; simp at hj
      | cons a t => simp
    rw [hdropj]
    exact this

/-- C2.  In every training epoch the gradient accumulator starts zeroed, the backprop
gradients of all `N` training examples are summed into it, every weight and bias is then
updated exactly once by subtracting `(learning_rate / N)` times its accumulated gradient
with `N` the size of the whole training set, and no parameter changes before all `N`
gradients have been accumulated: each per-example gradient is computed by `backprop` on
the unmodified network that entered the epoch. -/
theorem epoch_full_batch_update (s : α → α) (lr : α) {net : Network α}
    {data : List (Mat α × Mat α)} (h : WF net) (hD : DataOK net data) (hne : data ≠ []) :
    ∃ tp : ℕ,
      epochBody s lr data net = .ok
        ({ sizes := net.sizes
          , biases := List.zipWith (fun p g => subT p (smulT (lr / (data.length : α)) g))
              net.biases (sumGradsB s net data)
          , weights := List.zipWith (fun p g => subT p (smulT (lr / (data.length : α)) g))
              net.weights (sumGradsW s net data) },
         (tp : α) / (data.length : α)) ∧
      sumGradsB s net data =
        data.foldl (fun acc p => addLT acc (nablaBT s net p.1 p.2))
          (net.biases.map zeroLike) ∧
      sumGradsW s net data =
        data.foldl (fun acc p => addLT acc (nablaWT s net p.1 p.2))
          (net.weights.map zeroLike) ∧
      ∀ p ∈ data, backprop s net p.1 p.2 = .ok (nablaBT s net p.1 p.2, nablaWT s net p.1 p.2) := by
  obtain ⟨tp, hep, -⟩ := epochBody_master s lr h hD hne
  exact ⟨tp, hep, rfl, rfl, fun p hp => (backprop_master s h (hD p hp).1 (hD p hp).2).1⟩

/-- C3.  The training loop exits only under one of the two stopping conditions — the
accuracy reaches at least `0.8`, or the absolute change in accuracy between two
consecutive epochs is below `1e-5` — and while both conditions are false at the end of
an epoch another epoch is always run (the fuel parameter only truncates the otherwise
unbounded loop; exhausted fuel yields `none`, never a result). -/
theorem sgd_stop_conditions (s : α → α) (lr : α) (data : List (Mat α × Mat α)) :
    (∀ (fuel : ℕ) (net : Network α) (acc : α) (net' : Network α) (acc' : α),
      SGDloop s lr data fuel net acc = .ok (some (net', acc')) →
      (8 / 10 : α) ≤ acc' ∨
      ∃ (nprev : Network α) (aprev : α),
        epochBody s lr data nprev = .ok (net', acc') ∧ |acc' - aprev| < 1 / 100000) ∧
    (∀ (fuel : ℕ) (net : Network α) (acc : α), acc < 8 / 10 →
      SGDloop s lr data (fuel + 1) net acc =
        (epochBody s lr data net >>= fun r =>
          if |r.2 - acc| < 1 / 100000 then pure (some r)
          else SGDloop s lr data fuel r.1 r.2)) :=
  ⟨SGDloop_exit_reason s lr data,
   fun fuel net acc hacc => SGDloop_unfold s lr data fuel net acc hacc⟩

/-- C4.  When the training loop stops, `SGD` returns the ordered list of raw forward-pass
output vectors for the training set — one per example, element `i` computed from training
example `i`, list length equal to the training-set size — and not an accuracy value
(the returned value is in the `Sum.inr` raw-output branch). -/
theorem sgd_returns_raw_outputs (s : α → α) (net : Network α)
    (data : List (Mat α × Mat α)) (lr : α) (fuel : ℕ) (ret : ℕ ⊕ List (Mat α))
    (h : SGD s net data lr fuel = .ok (some ret)) :
    ∃ (net' : Network α) (outs : List (Mat α)),
      ret = Sum.inr outs ∧ outs.length = data.length ∧
      ∀ i (h1 : i < data.length) (h2 : i < outs.length),
        feedforward s net' (data[i].1) = .ok outs[i] := by
  unfold SGD at h
  cases hloop : SGDloop s lr data fuel net 0 with
  | error e => rw [hloop, error_bind] at h; cases h
  | ok r =>
      rw [hloop, ok_bind] at h
      cases r with
      | none => cases h
      | some p =>
          dsimp only at h
          unfold evaluate at h
          cases htr : mapE (fun q => do
              let out ← feedforward s p.1 q.1
              pure (argmaxA out, argmaxA q.2)) data with
          | error e => rw [htr, error_bind] at h; cases h
          | ok tr =>
              rw [htr, ok_bind] at h
              simp only [Bool.false_eq_true, if_false] at h
              cases houts : mapE (fun q => feedforward s p.1 q.1) data with
              | error e => rw [houts, error_bind] at h; cases h
              | ok outs =>
                  rw [houts, ok_bind] at h
                  have h2 : (Except.ok (some (Sum.inr outs)) :
                      Except String (Option (ℕ ⊕ List (Mat α)))) = .ok (some ret) := h
                  have hret : ret = Sum.inr outs :=
                    (Option.some.inj (Except.ok.inj h2)).symm
                  obtain ⟨hlen, hpt⟩ := mapE_ok_spec _ data outs houts
                  exact ⟨p.1, outs, hret, hlen, fun i h1 h2 => hpt i h1 h2⟩

/-- C6 (amended).  An empty training set is not rejected by any precondition check: the
`while` loop is entered (the entry accuracy `0` is below `0.8`), the gradient
accumulation loop runs zero times, and the first parameter-update comprehension performs
`learning_rate / len(training_data)` and raises `ZeroDivisionError`; no NaN parameters
are ever produced. -/
theorem empty_training_divzero (s : α → α) (lr : α) (net : Network α) (fuel : ℕ)
    (hw : net.weights ≠ []) :
    SGDloop s lr [] (fuel + 1) net 0 = .error "ZeroDivisionError" := by
  have h08 : (0 : α) < 8 / 10 := by norm_num
  rw [SGDloop_unfold s lr [] fuel net 0 h08]
  have hep : epochBody s lr [] net = .error "ZeroDivisionError" := by
    obtain ⟨ns, nb, nww⟩ := net
    cases nww with
    | nil => simp at hw
    | cons w0 wrest => rfl
  rw [hep, error_bind]

/-- C7 (amended).  An example whose input-vector dimension disagrees with the declared
layer sizes makes `backprop` fail immediately: the very first layer's `np.dot` raises
`ValueError` and the error propagates, so no gradients are produced.  (Target-vector
mismatches are not always rejected — see the counterexample, where a dimension-1 target
against a 2-dimensional output broadcasts silently.) -/
theorem backprop_input_mismatch_error (s : α → α) {net : Network α} (h : WF net)
    {x : Mat α} {m : ℕ} (hx : HasShape x m 1) (hm : m ≠ net.sizes.headD 0) (y : Mat α) :
    backprop s net x y = .error "ValueError: shapes not aligned" := by
  obtain ⟨d, szs, hs, hne, hd, hposs, hlay, hhead, hlast⟩ := WF_parts h
  have hlens := layers_len hlay
  have hL1 : 1 ≤ szs.length := List.length_pos.mpr hne
  obtain ⟨w, ws', hwe⟩ := List.exists_cons_of_ne_nil
    (show net.weights ≠ [] from List.length_pos.mp (by rw [hlens.2]; omega))
  obtain ⟨b, bs', hbe⟩ := List.exists_cons_of_ne_nil
    (show net.biases ≠ [] from List.length_pos.mp (by rw [hlens.1]; omega))
  have hw0 : HasShape w (szs.getD 0 0) d := by
    have hg := (layers_getD hlay 0 (by omega)).1
    rw [hwe] at hg
    simpa using hg
  have hn0 : 0 < szs.getD 0 0 := by
    rw [List.getD_eq_getElem _ _ (by omega)]
    exact hposs _ (List.getElem_mem _)
  have hm' : m ≠ d := by rwa [hhead] at hm
  have hdoterr : dotM w x = .error "ValueError: shapes not aligned" := by
    apply dotM_err
    rw [numCols_of_shape hw0 hn0, shape_rows hx]
    exact fun hc => hm' hc.symm
  have hstep : fwdStep s (x, ([x] : List (Mat α)), ([] : List (Mat α))) (b, w) =
      .error "ValueError: shapes not aligned" := by
    simp only [fwdStep]
    rw [hdoterr, error_bind]
  unfold backprop
  rw [hbe, hwe]
  simp only [List.zip_cons_cons, List.foldlM_cons]
  rw [hstep, error_bind, error_bind]

/-- C8.  For every `sizes` list of length `k ≥ 2` (with positive entries),
initialization produces exactly `k-1` weight matrices and `k-1` bias vectors, weight
matrix `i` of shape `(sizes[i+1], sizes[i])` and bias vector `i` of shape
`(sizes[i+1], 1)`; and this shape invariant is preserved by the training loop: whatever
epochs it runs, the returned network has unchanged `sizes` and the same per-layer
shapes. -/
theorem init_and_update_shapes (gB gW : ℕ → ℕ → ℕ → α) (sizes : List ℕ)
    (hk : 2 ≤ sizes.length) (hpos : ∀ m ∈ sizes, 0 < m) (s : α → α) (lr : α)
    (data : List (Mat α × Mat α)) (hne : data ≠ []) :
    (Network.init (α := α) sizes gB gW).weights.length = sizes.length - 1 ∧
    (Network.init (α := α) sizes gB gW).biases.length = sizes.length - 1 ∧
    (∀ i < sizes.length - 1,
      HasShape ((Network.init (α := α) sizes gB gW).weights.getD i [])
        (sizes.getD (i + 1) 0) (sizes.getD i 0) ∧
      HasShape ((Network.init (α := α) sizes gB gW).biases.getD i [])
        (sizes.getD (i + 1) 0) 1) ∧
    WF (Network.init (α := α) sizes gB gW) ∧
    ∀ (net : Network α), WF net → DataOK net data →
      ∀ fuel (acc : α) (net' : Network α) (acc' : α),
        SGDloop s lr data fuel net acc = .ok (some (net', acc')) →
        net'.sizes = net.sizes ∧ WF net' ∧
        net'.weights.length = net.sizes.length - 1 ∧
        net'.biases.length = net.sizes.length - 1 ∧
        ∀ i < net.sizes.length - 1,
          HasShape (net'.weights.getD i []) (net.sizes.getD (i + 1) 0) (net.sizes.getD i 0) ∧
          HasShape (net'.biases.getD i []) (net.sizes.getD (i + 1) 0) 1 := by
  have hi := init_shapes (α := α) sizes gB gW
  have hwf := init_WF sizes gB gW hk hpos
  refine ⟨hi.1, hi.2.1, hi.2.2, hwf, ?_⟩
  intro net hWFn hDn fuel acc net' acc' hrun
  obtain ⟨hWF', hsz⟩ := SGDloop_WF s lr data hne fuel net acc net' acc' hWFn hDn hrun
  have hidx := WF_indexed hWF'
  rw [hsz] at hidx
  exact ⟨hsz, hWF', hidx.1, hidx.2.1, hidx.2.2⟩

/-- C9.  On any data set matching the layer sizes, the evaluator in accuracy mode
returns the count of examples whose forward-pass output and target share the same argmax
index, where the argmax of every vector involved is the lowest index attaining the
maximum (`IsLeastArgmax`); weights and biases are read through the pure forward pass and
never modified (the embedding of `evaluate` consumes the network immutably and returns
only the count). -/
theorem evaluate_accuracy_count (s : α → α) {net : Network α} (h : WF net)
    {data : List (Mat α × Mat α)} (hD : DataOK net data) :
    evaluate s net data true = .ok (Sum.inl ((data.map (fun p =>
      if argmaxA (ffT s (net.biases.zip net.weights) p.1) = argmaxA p.2
      then 1 else 0)).sum)) ∧
    ∀ p ∈ data,
      feedforward s net p.1 = .ok (ffT s (net.biases.zip net.weights) p.1) ∧
      IsLeastArgmax (ffT s (net.biases.zip net.weights) p.1).flatten
        (argmaxA (ffT s (net.biases.zip net.weights) p.1)) ∧
      IsLeastArgmax p.2.flatten (argmaxA p.2) := by
  refine ⟨evaluate_true_eq s h hD, fun p hp => ?_⟩
  have hex := hD p hp
  have hff := feedforward_eq s h hex.1
  have hshape := ffT_out_shape s h hex.1
  have hpos : 0 < net.sizes.getLastD 0 := by
    obtain ⟨d, szs, hs, hne, hd, hposs, hlay, hhead, hlast⟩ := WF_parts h
    have hlp : 0 < szs.length := List.length_pos.mpr hne
    rw [hlast, getLastD_eq_getD 0 szs hne, List.getD_eq_getElem _ _ (by omega)]
    exact hposs _ (List.getElem_mem _)
  refine ⟨hff, ?_, ?_⟩
  · exact argmaxList_spec _ (flatten_ne_nil_of_shape hshape hpos)
  · exact argmaxList_spec _ (flatten_ne_nil_of_shape hex.2 hpos)

/-- C10.  For a non-empty training set, `SGD` always performs at least one full epoch —
the loop-entry accuracy starts at 0, which is below 0.8, so the first epoch's
gradient accumulation and parameter update run before any stopping condition is
consulted — even when the initial parameters already score at least 0.8 on the training
set (hypotheses `hinit`, `hhigh`, which the proof never needs). -/
theorem sgd_first_epoch_always_runs (s : α → α) (lr : α) {net : Network α}
    {data : List (Mat α × Mat α)} (hne : data ≠ []) {tp0 : ℕ}
    (hinit : evaluate s net data true = .ok (Sum.inl tp0))
    (hhigh : (8 / 10 : α) ≤ (tp0 : α) / (data.length : α)) :
    (∀ fuel : ℕ, SGDloop s lr data (fuel + 1) net 0 =
      (epochBody s lr data net >>= fun r =>
        if |r.2 - 0| < 1 / 100000 then pure (some r)
        else SGDloop s lr data fuel r.1 r.2)) ∧
    ∀ (fuel : ℕ) (ret : ℕ ⊕ List (Mat α)), SGD s net data lr fuel = .ok (some ret) →
      ∃ r, epochBody s lr data net = .ok r := by
  have h08 : (0 : α) < 8 / 10 := by norm_num
  refine ⟨fun fuel => SGDloop_unfold s lr data fuel net 0 h08, ?_⟩
  intro fuel ret hrun
  cases fuel with
  | zero =>
      unfold SGD at hrun
      have h2 : (Except.ok (none : Option (ℕ ⊕ List (Mat α))) :
          Except String (Option (ℕ ⊕ List (Mat α)))) = .ok (some ret) := hrun
      exact Option.noConfusion (Except.ok.inj h2)
  | succ fuel =>
      unfold SGD at hrun
      rw [SGDloop_unfold s lr data fuel net 0 h08] at hrun
      cases hep : epochBody s lr data net with
      | error e => rw [hep, error_bind, error_bind] at hrun; cases hrun
      | ok r => exact ⟨r, rfl⟩

/-! Witnesses and counterexamples on closed inputs.  The core rational arithmetic
operations are `@[irreducible]`, which blocks `decide` outside the kernel even though
the kernel reduces them; they are made semireducible locally for these closed
evaluations. -/

section ClosedEvaluations

attribute [local semireducible] Rat.add Rat.sub Rat.mul Rat.inv

set_option maxRecDepth 100000

theorem backprop_equations_witness :
    WF netA ∧ HasShape ([[0]] : Mat ℚ) (netA.sizes.headD 0) 1 ∧
    HasShape ([[1], [0]] : Mat ℚ) (netA.sizes.getLastD 0) 1 ∧
    ∃ nb nw, backprop zeroAct netA [[0]] [[1], [0]] = .ok (nb, nw) :=
  ⟨netA_WF, by decide, by decide, by
    obtain ⟨nb, nw, heq, -⟩ :=
      backprop_equations (x := [[0]]) (y := [[1], [0]]) zeroAct netA_WF
        (by decide) (by decide)
    exact ⟨nb, nw, heq⟩⟩

theorem epoch_full_batch_update_witness :
    DataOK netA dataA ∧ dataA ≠ [] ∧
    ∃ (tp : ℕ) (r : Network ℚ),
      epochBody zeroAct 1 dataA netA = .ok (r, (tp : ℚ) / (dataA.length : ℚ)) :=
  ⟨by decide, by decide, by
    obtain ⟨tp, heq, -⟩ := epoch_full_batch_update zeroAct 1 netA_WF
      (show DataOK netA dataA by decide) (show dataA ≠ [] by decide)
    exact ⟨tp, _, heq⟩⟩

theorem sgd_stop_conditions_witness :
    ((8 / 10 : ℚ) ≤ 1 / 2 ∨
      ∃ (nprev : Network ℚ) (aprev : ℚ),
        epochBody zeroAct 1 dataA nprev = .ok (netA, 1 / 2) ∧
        |(1 / 2 : ℚ) - aprev| < 1 / 100000) ∧
    SGDloop zeroAct 1 dataA (3 + 1) netA 0 =
      (epochBody zeroAct 1 dataA netA >>= fun r =>
        if |r.2 - 0| < 1 / 100000 then pure (some r)
        else SGDloop zeroAct 1 dataA 3 r.1 r.2) :=
  ⟨(sgd_stop_conditions zeroAct 1 dataA).1 5 netA 0 netA (1 / 2) (by decide),
   (sgd_stop_conditions zeroAct 1 dataA).2 3 netA 0 (by decide)⟩

theorem sgd_returns_raw_outputs_witness :
    SGD zeroAct netA dataA 1 5 = .ok (some (Sum.inr [[[0], [0]], [[0], [0]]])) ∧
    ∃ (net' : Network ℚ) (outs : List (Mat ℚ)),
      (Sum.inr [[[0], [0]], [[0], [0]]] : ℕ ⊕ List (Mat ℚ)) = Sum.inr outs ∧
      outs.length = dataA.length ∧
      ∀ i (h1 : i < dataA.length) (h2 : i < outs.length),
        feedforward zeroAct net' (dataA[i].1) = .ok outs[i] :=
  ⟨by decide,
   sgd_returns_raw_outputs zeroAct netA dataA 1 5 (Sum.inr [[[0], [0]], [[0], [0]]])
     (by decide)⟩

theorem empty_training_divzero_cex :
    SGDloop zeroAct 1 ([] : List (Mat ℚ × Mat ℚ)) 1 netB 0 = .error "ZeroDivisionError" := by
  decide

theorem empty_training_divzero_witness :
    netB.weights ≠ [] ∧
    SGDloop zeroAct 1 ([] : List (Mat ℚ × Mat ℚ)) (3 + 1) netB 0 =
      .error "ZeroDivisionError" :=
  ⟨by decide, empty_training_divzero zeroAct 1 netB 3 (by decide)⟩

theorem backprop_silent_broadcast_cex :
    ([[0]] : Mat ℚ).length = 1 ∧ netA.sizes.getLastD 0 = 2 ∧
    (backprop zeroAct netA [[0]] [[0]]).toOption.isSome = true := by
  decide

theorem backprop_input_mismatch_witness :
    WF netA ∧ HasShape ([[0], [0]] : Mat ℚ) 2 1 ∧ 2 ≠ netA.sizes.headD 0 ∧
    backprop zeroAct netA [[0], [0]] [[1], [0]] = .error "ValueError: shapes not aligned" :=
  ⟨netA_WF, by decide, by decide,
   backprop_input_mismatch_error (x := [[0], [0]]) (m := 2) zeroAct netA_WF
     (by decide) (by decide) [[1], [0]]⟩

theorem init_and_update_shapes_witness :
    2 ≤ ([1, 2] : List ℕ).length ∧ (∀ m ∈ ([1, 2] : List ℕ), 0 < m) ∧ dataA ≠ [] ∧
    WF (Network.init (α := ℚ) [1, 2] (fun _ _ _ => 0) (fun _ _ _ => 0)) :=
  ⟨by decide, by decide, by decide,
   (init_and_update_shapes (fun _ _ _ => (0 : ℚ)) (fun _ _ _ => 0) [1, 2]
     (by decide) (by decide) zeroAct 1 dataA (by decide)).2.2.2.1⟩

theorem evaluate_accuracy_count_witness :
    WF netA ∧ DataOK netA dataA ∧
    evaluate zeroAct netA dataA true = .ok (Sum.inl ((dataA.map (fun p =>
      if argmaxA (ffT zeroAct (netA.biases.zip netA.weights) p.1) = argmaxA p.2
      then 1 else 0)).sum)) :=
  ⟨netA_WF, by decide,
   (evaluate_accuracy_count zeroAct netA_WF (show DataOK netA dataA by decide)).1⟩

theorem sgd_first_epoch_always_runs_witness :
    dataB ≠ [] ∧ evaluate zeroAct netB dataB true = .ok (Sum.inl 1) ∧
    (8 / 10 : ℚ) ≤ (1 : ℚ) / (dataB.length : ℚ) ∧
    ∃ r, epochBody zeroAct 1 dataB netB = .ok r :=
  ⟨by decide, by decide, by norm_num [dataB],
   (sgd_first_epoch_always_runs zeroAct 1 (show dataB ≠ [] by decide)
     (show evaluate zeroAct netB dataB true = .ok (Sum.inl 1) by decide)
     (show (8 / 10 : ℚ) ≤ ((1 : ℕ) : ℚ) / (dataB.length : ℚ) by norm_num [dataB])).2
     4 (Sum.inr [[[0]]]) (by decide)⟩

end ClosedEvaluations

end NetworkPy
